import Mathlib

/-!
Verification development for the asset-repository library: a shallow embedding
of the path utilities (lib/utils.js), the in-memory entity store
(lib/backends/in-memory/repository.js), the repository coordinator
(lib/repository.js), the progress throttler and the subscription registry,
together with theorems settling the specification claims.

JavaScript strings are modelled as lists of characters (JStr).  The path
separator is modelled as the forward slash, matching the posix branch of
utils.sep() and the test suite.  Machine time is modelled by explicit natural
number clock arguments.  All operations are pure state transformers on the
in-memory tree.
-/

set_option autoImplicit false

namespace AssetRepo

/-- JavaScript string, modelled as a list of characters. -/
abbrev JStr := List Char

/-- Path separator character, the posix branch of utils.sep(). -/
def sepChar : Char := '/'

/-- The separator as a one-character path string, utils.sep(). -/
def sepStr : JStr := [sepChar]

/-- JavaScript String.prototype.split on the separator character: returns the
list of (possibly empty) chunks between separators. -/
def splitSep : JStr → List JStr
  | [] => [[]]
  | c :: cs =>
    if c = sepChar then [] :: splitSep cs
    else
      match splitSep cs with
      | s :: ss => (c :: s) :: ss
      | [] => [[c]]

/-- JavaScript String.prototype.lastIndexOf for the separator character:
index of the last separator, or none when there is no separator. -/
def lastIndexOfSep : JStr → Option Nat
  | [] => none
  | c :: cs =>
    match lastIndexOfSep cs with
    | some i => some (i + 1)
    | none => if c = sepChar then some 0 else none

/-- utils.getPathName: the substring after the last separator, or the whole
path when it holds no separator. -/
def getPathName (p : JStr) : JStr :=
  match lastIndexOfSep p with
  | none => p
  | some pos => p.drop (pos + 1)

/-- utils.getParentPath: none (JS null) when the path has no separator, the
separator itself when the last separator is at position zero, and otherwise
the substring before the last separator. -/
def getParentPath (p : JStr) : Option JStr :=
  match lastIndexOfSep p with
  | none => none
  | some 0 => sepStr
  | some pos => p.take pos

/-- utils.isRoot: true exactly when the path equals the separator alone. -/
def isRoot (p : JStr) : Bool := p = sepStr

/-- When utils.getParentPath returns JS null, the coordinator stores null as
the path of the parent options record and the in-memory walk coerces it with
new String(null), producing the literal string "null".  This is that
coercion. -/
def parentPathOrNull (p : JStr) : JStr := (getParentPath p).getD ("null".data)

/-- Joins nonempty path segments with the separator (specification helper for
describing well-formed absolute paths; not part of the source). -/
def joinSegs : List JStr → JStr
  | [] => []
  | [s] => s
  | s :: rest => s ++ sepChar :: joinSegs rest

/-- A good path segment: nonempty and free of the separator character. -/
def goodSeg (s : JStr) : Bool := !s.isEmpty && !s.contains sepChar

/-- A well-formed absolute path: a leading separator followed by one or more
good segments joined by the separator.  This is the shape produced by the
path utilities and used throughout the test suite. -/
def ValidPath (p : JStr) : Prop :=
  ∃ segs : List JStr, segs ≠ [] ∧ (∀ s ∈ segs, goodSeg s = true) ∧ p = sepChar :: joinSegs segs

/-! ### Path utility lemmas -/

/-- The nonempty segments of a path, in order.  The in-memory walk skips the
empty chunks produced by splitting, so it visits exactly these segments. -/
def effSegs (p : JStr) : List JStr := (splitSep p).filter (fun s => !s.isEmpty)

/-! ### The in-memory entity store (lib/backends/in-memory/repository.js)

An entity is a JavaScript object with a name, a type string, a creation
timestamp and, depending on which constructor built it, a children mapping
(directories, possibly empty) or content / modified / checkedOut /
checkedOutBy fields (assets).  Because updateAssetInfo writes arbitrary
info-view keys onto the raw object, the type tag is kept as a string field
rather than as separate constructors.  Fields a given entity kind never
carries (for example the children mapping of an asset) are modelled with
Option none or a default that no code path reads. -/

inductive Entity where
  | mk (name : JStr) (typ : JStr) (created : Nat)
       (children : Option (List (JStr × Entity)))
       (content : Option (List (List Nat)))
       (modified : Nat) (checkedOut : Bool) (checkedOutBy : JStr)

instance : Inhabited Entity := ⟨.mk [] [] 0 none none 0 false []⟩

/-- constants.DIR_TYPE. -/
def DIR_TYPE : JStr := "directory".data

/-- constants.ASSET_TYPE, pinned by the test suite asserting
info.type === the literal string asset. -/
def ASSET_TYPE : JStr := "asset".data

namespace Entity

def name : Entity → JStr
  | .mk n _ _ _ _ _ _ _ => n

def typ : Entity → JStr
  | .mk _ t _ _ _ _ _ _ => t

def created : Entity → Nat
  | .mk _ _ c _ _ _ _ _ => c

def children : Entity → Option (List (JStr × Entity))
  | .mk _ _ _ ch _ _ _ _ => ch

def content : Entity → Option (List (List Nat))
  | .mk _ _ _ _ co _ _ _ => co

def modified : Entity → Nat
  | .mk _ _ _ _ _ m _ _ => m

def checkedOut : Entity → Bool
  | .mk _ _ _ _ _ _ co _ => co

def checkedOutBy : Entity → JStr
  | .mk _ _ _ _ _ _ _ cb => cb

/-- entity.updateContent(newContent): replaces the stored content and nothing
else.  Note that it does not touch the modified timestamp. -/
def updateContent (e : Entity) (chunks : List (List Nat)) : Entity :=
  match e with
  | .mk n t c ch _ m co cb => .mk n t c ch (some chunks) m co cb

def setName (e : Entity) (v : JStr) : Entity :=
  match e with
  | .mk _ t c ch co m ck cb => .mk v t c ch co m ck cb

def setTyp (e : Entity) (v : JStr) : Entity :=
  match e with
  | .mk n _ c ch co m ck cb => .mk n v c ch co m ck cb

def setCreated (e : Entity) (v : Nat) : Entity :=
  match e with
  | .mk n t _ ch co m ck cb => .mk n t v ch co m ck cb

def setModified (e : Entity) (v : Nat) : Entity :=
  match e with
  | .mk n t c ch co _ ck cb => .mk n t c ch co v ck cb

def setCheckedOut (e : Entity) (v : Bool) : Entity :=
  match e with
  | .mk n t c ch co m _ cb => .mk n t c ch co m v cb

def setCheckedOutBy (e : Entity) (v : JStr) : Entity :=
  match e with
  | .mk n t c ch co m ck _ => .mk n t c ch co m ck v

end Entity

/-- _getDirectoryInfo(path): a fresh directory object with an empty children
mapping and the current time as creation timestamp. -/
def getDirectoryInfo (p : JStr) (now : Nat) : Entity :=
  .mk (getPathName p) DIR_TYPE now (some []) none 0 false []

/-- _getAssetInfo(path): a fresh asset object with null content, identical
created and modified timestamps, and cleared checkout state. -/
def getAssetInfo (p : JStr) (now : Nat) : Entity :=
  .mk (getPathName p) ASSET_TYPE now none none now false []

/-- Lookup of a child by name in a children mapping. -/
def childLookup : List (JStr × Entity) → JStr → Option Entity
  | [], _ => none
  | (k, e) :: rest, n => if k = n then some e else childLookup rest n

/-- JavaScript assignment children[name] = v: replaces the existing binding
or appends a new one. -/
def setChild : List (JStr × Entity) → JStr → Entity → List (JStr × Entity)
  | [], n, v => [(n, v)]
  | (k, e) :: rest, n, v =>
    if k = n then (k, v) :: rest else (k, e) :: setChild rest n v

/-- JavaScript delete children[name]: removes the binding when present. -/
def removeChild : List (JStr × Entity) → JStr → List (JStr × Entity)
  | [], _ => []
  | (k, e) :: rest, n =>
    if k = n then rest else (k, e) :: removeChild rest n

/-- The per-segment walking loop of _getEntity: empty segments are skipped,
walking into an entity with no children mapping fails, and a missing child
fails. -/
def walkSegs : Entity → List JStr → Except String Entity
  | e, [] => .ok e
  | e, n :: rest =>
    if n.isEmpty then walkSegs e rest
    else
      match e.children with
      | none => .error "not found - not an entity that has children"
      | some ch =>
        match childLookup ch n with
        | none => .error "not found"
        | some c => walkSegs c rest

/-- _getEntity(path): the root shortcut followed by the split-and-walk loop. -/
def getEntity (root : Entity) (p : JStr) : Except String Entity :=
  if p = sepStr then .ok root
  else walkSegs root (splitSep p)

/-- Replacement of the children mapping, keeping every other field. -/
def Entity.withChildren (e : Entity) (ch : Option (List (JStr × Entity))) : Entity :=
  match e with
  | .mk n t c _ co m ck cb => .mk n t c ch co m ck cb

/-- Pure counterpart of mutating the object reached by the walk of
_getEntity: rebuilds the tree along the same walk, applying f to the target.
Failure cases coincide with the failure cases of the walk. -/
def modifySegs (f : Entity → Except String Entity) :
    Entity → List JStr → Except String Entity
  | e, [] => f e
  | e, n :: rest =>
    if n.isEmpty then modifySegs f e rest
    else
      match e.children with
      | none => .error "not found - not an entity that has children"
      | some ch =>
        match childLookup ch n with
        | none => .error "not found"
        | some c =>
          (modifySegs f c rest).map fun c' =>
            e.withChildren (some (setChild ch n c'))

/-- Mutation of the entity located at a path, with the same root shortcut as
_getEntity. -/
def modifyEntity (root : Entity) (p : JStr) (f : Entity → Except String Entity) :
    Except String Entity :=
  if p = sepStr then f root
  else modifySegs f root (splitSep p)

/-- Writing a child binding onto an entity; the JS original
parent.children[name] = info throws when the parent has no children mapping,
modelled as an error (the coordinator never reaches that case). -/
def setChildOf (n : JStr) (v : Entity) (e : Entity) : Except String Entity :=
  match e with
  | .mk nm ty cr (some ch) co mo ck cb => .ok (.mk nm ty cr (some (setChild ch n v)) co mo ck cb)
  | .mk _ _ _ none _ _ _ _ => .error "cannot add child to an entity without children"

/-- Removing a child binding from an entity; the JS original
delete parent.children[name] throws when the parent has no children mapping. -/
def removeChildOf (n : JStr) (e : Entity) : Except String Entity :=
  match e with
  | .mk nm ty cr (some ch) co mo ck cb => .ok (.mk nm ty cr (some (removeChild ch n)) co mo ck cb)
  | .mk _ _ _ none _ _ _ _ => .error "cannot remove child from an entity without children"

/-- _createEntity(path, entityInfo): walks to the parent path (JS null is
coerced to the string null) and assigns the child binding for the leaf name. -/
def createEntity (root : Entity) (p : JStr) (info : Entity) : Except String Entity :=
  modifyEntity root (parentPathOrNull p) (setChildOf (getPathName p) info)

/-- _deleteEntity(path): walks to the parent path and deletes the child
binding for the leaf name. -/
def deleteEntity (root : Entity) (p : JStr) : Except String Entity :=
  modifyEntity root (parentPathOrNull p) (removeChildOf (getPathName p))

/-! ### Info views (dynamic JavaScript objects) -/

/-- A dynamic JavaScript value as stored in an info view. -/
inductive Val where
  | vs (v : JStr)
  | vn (v : Nat)
  | vb (v : Bool)
  | vnull
  deriving DecidableEq, Repr

/-- A dynamic JavaScript object: ordered key-value bindings with unique keys
(uniqueness holds for every object the code builds). -/
abbrev Obj := List (String × Val)

/-- Property read o[k], none for absent keys (JS undefined). -/
def objGet (o : Obj) (k : String) : Option Val :=
  match o with
  | [] => none
  | (k', v) :: rest => if k' = k then some v else objGet rest k

/-- Modelled from the spec: the external mime npm module used by the
in-memory store; content-type is derived from the name at read time and may
be null for unknown extensions.  Only the txt mapping is exercised by the
tests. -/
def mimeGetType (name : JStr) : Option JStr :=
  if "txt".data.isSuffixOf name ∧ ".txt".data.isSuffixOf name then some "text/plain".data
  else if ".png".data.isSuffixOf name then some "image/png".data
  else none

/-- The size loop of _infoFromEntity: the sum of the chunk lengths of the
stored content, zero for null content. -/
def contentSize : Option (List (List Nat)) → Nat
  | none => 0
  | some chunks => chunks.foldl (fun a c => a + c.length) 0

/-- _infoFromEntity: the externally visible info view of an entity.  Every
entity exposes name, created and type; asset-typed entities additionally
expose modified, contentType (derived from the name), size (derived from the
content), checkedOut and checkedOutBy. -/
def infoFromEntity (e : Entity) : Obj :=
  let base : Obj := [("name", .vs e.name), ("created", .vn e.created), ("type", .vs e.typ)]
  if e.typ = ASSET_TYPE then
    base ++ [("modified", .vn e.modified),
             ("contentType", match mimeGetType e.name with | some t => .vs t | none => .vnull),
             ("size", .vn (contentSize e.content)),
             ("checkedOut", .vb e.checkedOut),
             ("checkedOutBy", .vs e.checkedOutBy)]
  else base

/-- The coordinator check info.type === t on an info view. -/
def isType (o : Obj) (t : JStr) : Bool := objGet o "type" == some (.vs t)

/-! ### Repository operations: coordinator (lib/repository.js) composed with
the in-memory store.  Each operation is a pure function from the tree state
(and a clock value where the source reads the clock) to a result and the new
state.  Callback delivery gating by subscriber is modelled separately. -/

/-- Repository.prototype.exists composed with InMemoryRepository._exists:
true exactly when the walk succeeds; never errors. -/
def existsOp (root : Entity) (p : JStr) : Bool :=
  match getEntity root p with
  | .ok _ => true
  | .error _ => false

/-- Repository.prototype.getInfo composed with the in-memory _getInfo: the
exists pre-check yields the path-does-not-exist error, otherwise the info
view of the entity. -/
def getInfoOp (root : Entity) (p : JStr) : Except String Obj :=
  match getEntity root p with
  | .error _ => .error ("path does not exist " ++ String.mk p)
  | .ok e => .ok (infoFromEntity e)

/-- Repository.prototype.createDirectory composed with the in-memory
backend: root check, existence check, parent checks, creation, re-fetch. -/
def createDirectoryOp (root : Entity) (p : JStr) (now : Nat) :
    Except String Obj × Entity :=
  if isRoot p then (.error "cannot create root directory", root)
  else if existsOp root p then
    (.error ("directory to create already exists " ++ String.mk p), root)
  else
    match getInfoOp root (parentPathOrNull p) with
    | .error e => (.error e, root)
    | .ok pinfo =>
      if ¬ isType pinfo DIR_TYPE then
        (.error ("cannot create directory " ++ String.mk p ++ " beneath entity type"), root)
      else
        match createEntity root p (getDirectoryInfo p now) with
        | .error e => (.error e, root)
        | .ok root' => (getInfoOp root' p, root')

/-- Repository.prototype.deleteDirectory composed with the in-memory
backend: root check, info and type checks, then child removal. -/
def deleteDirectoryOp (root : Entity) (p : JStr) : Except String Unit × Entity :=
  if isRoot p then (.error "cannot delete root directory", root)
  else
    match getInfoOp root p with
    | .error e => (.error e, root)
    | .ok info =>
      if ¬ isType info DIR_TYPE then
        (.error ("path to delete is not a directory " ++ String.mk p), root)
      else
        match deleteEntity root p with
        | .error e => (.error e, root)
        | .ok root' => (.ok (), root')

/-- Repository.prototype.createAsset composed with the in-memory backend:
the _getWriteStream validation (path must not exist, parent must exist and
be a directory), then the finish handler of _getAssetWriteStream (create the
asset entity and store the streamed chunks as its content), then the info
re-fetch delivered to the finished callback. -/
def createAssetOp (root : Entity) (p : JStr) (chunks : List (List Nat)) (now : Nat) :
    Except String Obj × Entity :=
  if existsOp root p then
    (.error ("asset to create already exists " ++ String.mk p), root)
  else
    match getInfoOp root (parentPathOrNull p) with
    | .error e => (.error e, root)
    | .ok pinfo =>
      if ¬ isType pinfo DIR_TYPE then
        (.error ("cannot create asset " ++ String.mk p ++ " beneath entity type"), root)
      else
        match createEntity root p ((getAssetInfo p now).updateContent chunks) with
        | .error e => (.error e, root)
        | .ok root' => (getInfoOp root' p, root')

/-- Repository.prototype.updateAsset composed with the in-memory backend:
the _getWriteStream validation (path must exist and be an asset), then the
finish handler (fetch the entity and replace its content; the modified
timestamp is not touched), then the info re-fetch. -/
def updateAssetOp (root : Entity) (p : JStr) (chunks : List (List Nat)) :
    Except String Obj × Entity :=
  match getInfoOp root p with
  | .error e => (.error e, root)
  | .ok info =>
    if ¬ isType info ASSET_TYPE then
      (.error ("path to update is not an asset " ++ String.mk p), root)
    else
      match modifyEntity root p (fun e => .ok (e.updateContent chunks)) with
      | .error e => (.error e, root)
      | .ok root' => (getInfoOp root' p, root')

/-- Repository.prototype.getAsset composed with the in-memory backend: info
and type checks, then the chunk list of the returned MemoryStream (null
content yields an empty stream). -/
def getAssetOp (root : Entity) (p : JStr) : Except String (List (List Nat)) :=
  match getInfoOp root p with
  | .error e => .error e
  | .ok info =>
    if ¬ isType info ASSET_TYPE then
      .error ("path to retrieve is not an asset " ++ String.mk p)
    else
      match getEntity root p with
      | .error e => .error e
      | .ok e => .ok (e.content.getD [])

/-- Repository.prototype.deleteAsset composed with the in-memory backend. -/
def deleteAssetOp (root : Entity) (p : JStr) : Except String Unit × Entity :=
  match getInfoOp root p with
  | .error e => (.error e, root)
  | .ok info =>
    if ¬ isType info ASSET_TYPE then
      (.error ("path to delete is not an asset " ++ String.mk p), root)
    else
      match deleteEntity root p with
      | .error e => (.error e, root)
      | .ok root' => (.ok (), root')

/-- Application of one info-view key onto the raw entity object, as done by
the assignment loop of _updateAsset.  Writes to contentType and size land on
dynamic properties that _infoFromEntity never reads back, so they are
dropped here; values whose type does not match the field are excluded by the
well-typedness hypotheses of the theorems. -/
def applyInfoKey (e : Entity) (k : String) (v : Val) : Entity :=
  match k, v with
  | "name", .vs x => e.setName x
  | "created", .vn x => e.setCreated x
  | "type", .vs x => e.setTyp x
  | "modified", .vn x => e.setModified x
  | "checkedOut", .vb x => e.setCheckedOut x
  | "checkedOutBy", .vs x => e.setCheckedOutBy x
  | _, _ => e

/-- The assignment loop of _updateAsset over all keys of the updated info. -/
def applyObj (e : Entity) (o : Obj) : Entity :=
  o.foldl (fun acc kv => applyInfoKey acc kv.1 kv.2) e

/-- Repository.prototype.updateAssetInfo composed with the in-memory
backend: info and type checks, construction of updatedInfo by walking the
keys of the current info view (keys of newInfo outside the view are never
consulted), the assignment loop of _updateAsset, then the info re-fetch. -/
def updateAssetInfoOp (root : Entity) (p : JStr) (newInfo : Obj) :
    Except String Obj × Entity :=
  match getInfoOp root p with
  | .error e => (.error e, root)
  | .ok info =>
    if ¬ isType info ASSET_TYPE then
      (.error ("path to update is not an asset " ++ String.mk p), root)
    else
      let updatedInfo : Obj := info.map (fun kv => (kv.1, (objGet newInfo kv.1).getD kv.2))
      match modifyEntity root p (fun e =>
        if e.typ ≠ ASSET_TYPE then .error "asset to update is not an asset"
        else .ok (applyObj e updatedInfo)) with
      | .error e => (.error e, root)
      | .ok root' => (getInfoOp root' p, root')

/-! ### Well-formed trees

The data model of the specification: every node is either a Directory (with
a children mapping and unique sibling names) or an Asset (without one).
Every state reachable through create and delete operations satisfies this
predicate; updateAssetInfo can break it by patching the type key, which is
the subject of claim C10. -/

/-- Unique keys in a children mapping. -/
def nodupKeys : List (JStr × Entity) → Bool
  | [] => true
  | (k, _) :: rest => !(rest.any (fun kv => kv.1 == k)) && nodupKeys rest

mutual

/-- Well-formedness: directory-typed nodes are exactly those carrying a
children mapping, sibling keys are unique, non-directories are asset-typed,
and the property holds recursively. -/
def wfEntity : Entity → Bool
  | .mk _ ty _ none _ _ _ _ => ty == ASSET_TYPE
  | .mk _ ty _ (some ch) _ _ _ _ => ty == DIR_TYPE && nodupKeys ch && wfChildren ch

def wfChildren : List (JStr × Entity) → Bool
  | [] => true
  | (_, e) :: rest => wfEntity e && wfChildren rest

end

/-! ### Subscription registry (lib/repository.js) -/

/-- The subscriber set: the keys of the this.subscribers object. -/
abbrev Subscribers := List JStr

/-- Repository.prototype.subscribe: stores the id (idempotently). -/
def subscribeOp (subs : Subscribers) (id : JStr) : Subscribers :=
  if subs.contains id then subs else subs ++ [id]

/-- Repository.prototype.isSubscribed: truthiness of the stored flag. -/
def isSubscribedOp (subs : Subscribers) (id : JStr) : Bool := subs.contains id

/-- Repository.prototype.unsubscribe: deletes the key when subscribed (JS
delete removes the object key; on the list-of-keys representation this is
the removal of every occurrence). -/
def unsubscribeOp (subs : Subscribers) (id : JStr) : Subscribers :=
  if isSubscribedOp subs id then subs.filter (fun x => !(x == id)) else subs

/-- Repository.prototype.emitCallback: the callback runs exactly when the
context subscriber id is falsy (absent or empty) or currently subscribed;
otherwise the delivery is silently dropped. -/
def emitCallbackDelivers (subs : Subscribers) (subscriberId : JStr) : Bool :=
  subscriberId.isEmpty || isSubscribedOp subs subscriberId

/-! ### Progress throttler (lib/repository.js)

A single streamed transfer touches one (path, transferType) key of the
this.lastEmit map, so the throttler state is modelled as the optional record
stored under that key.  Clock readings are explicit natural number
arguments; JavaScript negative time differences compare to the delay window
exactly as truncated natural subtraction does. -/

/-- EMIT_DELAY, the throttle window in milliseconds. -/
def EMIT_DELAY : Nat := 1000

/-- Math.round(a / b) for natural a and positive b: the floor of a/b + 1/2. -/
def jsRound (a b : Nat) : Nat := (2 * a + b) / (2 * b)

/-- The rate assignment in the data handler of _monitorTransferProgress:
if (elapsed > 0) then rate = Math.round(totalRead / elapsed) || 1, keeping
the previous rate while no time has elapsed. -/
def computeRate (rate totalRead elapsed : Nat) : Nat :=
  if 0 < elapsed then
    let r := jsRound totalRead elapsed
    if r = 0 then 1 else r
  else rate

/-- An emitted transferprogress payload: cumulative bytes read and rate. -/
structure ProgressEv where
  read : Nat
  rate : Nat
  deriving DecidableEq, Repr

/-- The record stored under a key of this.lastEmit. -/
structure LastEmit where
  timestamp : Nat
  read : Nat
  rate : Nat
  deriving DecidableEq, Repr

/-- _shouldEmitProgress(path, transferType, force, progressData) for a fixed
key: emit when the progress data differs from the last emitted snapshot and
either no last emission exists, or the delay window has elapsed, or the
emission is forced. -/
def shouldEmitProgress (st : Option LastEmit) (now : Nat) (force : Bool)
    (pread prate : Nat) : Bool :=
  match st with
  | none => true
  | some le =>
    (decide (le.read ≠ pread) || decide (le.rate ≠ prate))
      && (decide (now - le.timestamp > EMIT_DELAY) || force)

/-- _shouldEmitProgress called with neither force nor progressData, the rate
recomputation guard: progressData defaults to the empty object whose read
and rate are undefined and therefore differ from any stored number, so only
the delay window decides once a last emission exists. -/
def shouldEmitProgressNoData (st : Option LastEmit) (now : Nat) : Bool :=
  match st with
  | none => true
  | some le => decide (now - le.timestamp > EMIT_DELAY)

/-- _emitTransferProgress for a fixed key: whether the event fires, and the
new stored record; a firing emission stores the snapshot with the current
clock value, and reset clears the key afterwards. -/
def emitTransferProgress (st : Option LastEmit) (now : Nat)
    (pread prate : Nat) (force reset : Bool) : Bool × Option LastEmit :=
  let emit := shouldEmitProgress st now force pread prate
  let st1 := if emit then some ⟨now, pread, prate⟩ else st
  let st2 := if reset then none else st1
  (emit, st2)

/-- The accumulator state of _monitorTransferProgress together with the
throttler record of the transfer key. -/
structure MonState where
  totalRead : Nat
  rate : Nat
  lastEmit : Option LastEmit
  deriving DecidableEq, Repr

/-- One data event of the monitored stream at the given clock value with the
given chunk length: totalRead accumulates, the rate is recomputed when the
recomputation guard passes, then an unforced emission is attempted with the
new totals. -/
def dataEvent (startTime : Nat) (s : MonState) (now chunkLen : Nat) :
    MonState × Option ProgressEv :=
  let totalRead := s.totalRead + chunkLen
  let rate :=
    if shouldEmitProgressNoData s.lastEmit now then computeRate s.rate totalRead (now - startTime)
    else s.rate
  let pr := emitTransferProgress s.lastEmit now totalRead rate false false
  (⟨totalRead, rate, pr.2⟩, if pr.1 then some ⟨totalRead, rate⟩ else none)

/-- All data events of a stream in order; each chunk carries its arrival
clock value and its length. -/
def processChunks (startTime : Nat) (s : MonState) :
    List (Nat × Nat) → MonState × List ProgressEv
  | [] => (s, [])
  | c :: rest =>
    let pr := dataEvent startTime s c.1 c.2
    let rec2 := processChunks startTime pr.1 rest
    (rec2.1, pr.2.toList ++ rec2.2)

/-- A full streamed transfer (create or update via _getWriteStream, read via
_getExistingAssetStream; all three share this shape) for one key starting
with no stored record: the forced start emission with read zero and rate
zero, the data events of the stream, then the forced and resetting final
emission carrying the accumulated totals.  The result lists the emitted
transferprogress events of the transfer in order. -/
def runTransfer (t0 : Nat) (chunks : List (Nat × Nat)) (tEnd : Nat) : List ProgressEv :=
  let start := emitTransferProgress none t0 0 0 true false
  let s0 : MonState := ⟨0, 0, start.2⟩
  let mid := processChunks t0 s0 chunks
  let fin := emitTransferProgress mid.1.lastEmit tEnd mid.1.totalRead mid.1.rate true true
  (if start.1 then [ProgressEv.mk 0 0] else []) ++ mid.2
    ++ (if fin.1 then [ProgressEv.mk mid.1.totalRead mid.1.rate] else [])

/-- The listener side of _emitTransferProgress: a firing emission reaches the
listeners only after passing the subscription gate of emitCallback. -/
def emitTransferProgressGated (subs : Subscribers) (subscriberId : JStr)
    (st : Option LastEmit) (now : Nat) (pread prate : Nat) (force : Bool) : Bool :=
  shouldEmitProgress st now force pread prate && emitCallbackDelivers subs subscriberId

/-! ### Search terms and regular expressions

findAssets accepts either a string or a RegExp; the coordinator compiles a
string term with new RegExp before handing it to the backend, which tests
every asset name with String.prototype.match (unanchored search).  The
regular expressions are modelled by an abstract syntax tree with standard
matching semantics, and new RegExp by a parser covering the fragment of the
pattern language the development evaluates: the metacharacters dot, plus,
star and question mark applied to single-character atoms, all other
characters standing for themselves. -/

inductive Regex where
  | fail
  | eps
  | chr (c : Char)
  | dot
  | seq (a b : Regex)
  | alt (a b : Regex)
  | star (a : Regex)
  deriving DecidableEq, Repr

/-- Whether the expression accepts the empty string. -/
def nullable : Regex → Bool
  | .fail => false
  | .eps => true
  | .chr _ => false
  | .dot => false
  | .seq a b => nullable a && nullable b
  | .alt a b => nullable a || nullable b
  | .star _ => true

/-- Brzozowski derivative with respect to one character. -/
def deriv : Regex → Char → Regex
  | .fail, _ => .fail
  | .eps, _ => .fail
  | .chr c, d => if c = d then .eps else .fail
  | .dot, _ => .eps
  | .seq a b, d =>
    if nullable a then .alt (.seq (deriv a d) b) (deriv b d) else .seq (deriv a d) b
  | .alt a b, d => .alt (deriv a d) (deriv b d)
  | .star a, d => .seq (deriv a d) (.star a)

/-- Whether some prefix of the input matches the expression. -/
def matchHere (r : Regex) : List Char → Bool
  | [] => nullable r
  | c :: cs => nullable r || matchHere (deriv r c) cs

/-- JavaScript String.prototype.match for an unanchored pattern: whether the
expression matches somewhere inside the input. -/
def rsearch (r : Regex) : List Char → Bool
  | [] => matchHere r []
  | l@(_ :: cs) => matchHere r l || rsearch r cs

/-- The matching relation of the regular expression language. -/
inductive RMatches : Regex → List Char → Prop where
  | eps : RMatches .eps []
  | chr (c : Char) : RMatches (.chr c) [c]
  | dot (c : Char) : RMatches .dot [c]
  | seqm {a b : Regex} {la lb : List Char} :
      RMatches a la → RMatches b lb → RMatches (.seq a b) (la ++ lb)
  | altl {a b : Regex} {l : List Char} : RMatches a l → RMatches (.alt a b) l
  | altr {a b : Regex} {l : List Char} : RMatches b l → RMatches (.alt a b) l
  | starNil (a : Regex) : RMatches (.star a) []
  | starCons {a : Regex} {l1 l2 : List Char} :
      RMatches a l1 → RMatches (.star a) l2 → RMatches (.star a) (l1 ++ l2)

/-- The literal expression matching exactly the given word. -/
def literalR : List Char → Regex
  | [] => .eps
  | c :: cs => .seq (.chr c) (literalR cs)

/-- Characters with no special meaning in the JavaScript pattern language. -/
def plainChar (c : Char) : Bool :=
  !(['.', '+', '*', '?', '(', ')', '[', ']', '^', '$', '|', '\\', '/'].contains c)

/-- The atom-stack pass of new RegExp over the modelled fragment: atoms are
accumulated in reverse; a postfix quantifier rewrites the preceding atom.
A quantifier with no preceding atom raises a SyntaxError in JavaScript; the
model keeps it as a literal, a case no evaluated pattern reaches. -/
def parseAtoms : List Regex → List Char → List Regex
  | acc, [] => acc
  | acc, c :: rest =>
    if c = '.' then parseAtoms (.dot :: acc) rest
    else if c = '+' then
      match acc with
      | a :: acc2 => parseAtoms (.seq a (.star a) :: acc2) rest
      | [] => parseAtoms (.chr '+' :: acc) rest
    else if c = '*' then
      match acc with
      | a :: acc2 => parseAtoms (.star a :: acc2) rest
      | [] => parseAtoms (.chr '*' :: acc) rest
    else if c = '?' then
      match acc with
      | a :: acc2 => parseAtoms (.alt a .eps :: acc2) rest
      | [] => parseAtoms (.chr '?' :: acc) rest
    else parseAtoms (.chr c :: acc) rest

/-- new RegExp(pattern): the sequential composition of the parsed atoms. -/
def newRegExp (pat : JStr) : Regex :=
  (parseAtoms [] pat).foldl (fun r a => .seq a r) .eps

/-- A search term as accepted by findAssets: a string or a RegExp. -/
inductive SearchTerm where
  | strT (s : JStr)
  | re (r : Regex)

/-- _convertSearchTermOptionsToObject: a string search term is compiled with
new RegExp; a RegExp term is used as given. -/
def searchTermToRegex : SearchTerm → Regex
  | .strT s => newRegExp s
  | .re r => r

/-! ### findAssets (Repository.prototype._findAssets) -/

mutual

/-- Number of nodes of the subtree rooted at an entity. -/
def entitySize : Entity → Nat
  | .mk _ _ _ none _ _ _ _ => 1
  | .mk _ _ _ (some ch) _ _ _ _ => 1 + childrenSize ch

def childrenSize : List (JStr × Entity) → Nat
  | [] => 0
  | (_, c) :: rest => entitySize c + childrenSize rest

end

/-- The child entities of an item in iteration order (for key in children). -/
def childEntities (e : Entity) : List Entity := (e.children.getD []).map Prod.snd

/-- Total node count of the entities on the search queue. -/
def queueSize (q : List Entity) : Nat := (q.map entitySize).sum

/-- The async.whilst queue loop of _findAssets: while the queue is nonempty,
pop its last item, push its directory children onto the queue and append the
info views of its non-directory children whose names match.  The fuel
argument only makes the recursion structural: every iteration strictly
shrinks the total node count of the queue, and findAssetsOp supplies enough
fuel for the loop to always run to completion. -/
def findLoop (r : Regex) : Nat → List Entity → List Obj → List Obj
  | _, [], acc => acc
  | 0, _ :: _, acc => acc
  | fuel + 1, h :: t, acc =>
    let item := (h :: t).getLast (by simp)
    let q2 := (h :: t).dropLast
    let kids := childEntities item
    let newDirs := kids.filter (fun c => c.typ == DIR_TYPE)
    let newMatches :=
      (kids.filter (fun c => !(c.typ == DIR_TYPE) && rsearch r c.name)).map infoFromEntity
    findLoop r fuel (q2 ++ newDirs) (acc ++ newMatches)

/-- Repository.prototype.findAssets composed with the in-memory backend:
convert the term, then run the queue loop from the repository root. -/
def findAssetsOp (root : Entity) (term : SearchTerm) : List Obj :=
  findLoop (searchTermToRegex term) (entitySize root) [root] []

mutual

/-- Structural characterization of the queue loop: for one popped item, the
matching non-directory children in order, followed by the full results of
the directory children in reverse order (the queue is a stack, so the last
pushed directory is drained first). -/
def collectE (r : Regex) : Entity → List Obj
  | .mk _ _ _ none _ _ _ _ => []
  | .mk _ _ _ (some ch) _ _ _ _ =>
    (collectCh r ch).1 ++ (collectCh r ch).2

/-- Pair of (matching non-directory children infos, reversed directory
children results) for a children list. -/
def collectCh (r : Regex) : List (JStr × Entity) → List Obj × List Obj
  | [] => ([], [])
  | (_, c) :: rest =>
    let pr := collectCh r rest
    if c.typ == DIR_TYPE then (pr.1, pr.2 ++ collectE r c)
    else ((if rsearch r c.name then [infoFromEntity c] else []) ++ pr.1, pr.2)

end

mutual

/-- The strict descendants of an entity through children mappings, in
pre-order. -/
def subEntities : Entity → List Entity
  | .mk _ _ _ none _ _ _ _ => []
  | .mk _ _ _ (some ch) _ _ _ _ => subListEntities ch

def subListEntities : List (JStr × Entity) → List Entity
  | [] => []
  | (_, c) :: rest => c :: (subEntities c ++ subListEntities rest)

end

/-- The keys of the info view of an asset. -/
def infoKeys : List String :=
  ["name", "created", "type", "modified", "contentType", "size", "checkedOut", "checkedOutBy"]

theorem splitSep_ne_nil (p : JStr) : splitSep p ≠ [] := by
  cases p with
  | nil => simp [splitSep]
  | cons c cs =>
    simp only [splitSep]
    split
    · simp
    · cases h : splitSep cs <;> simp

theorem splitSep_sepFree (s : JStr) (h : s.contains sepChar = false) :
    splitSep s = [s] := by
  induction s with
  | nil => rfl
  | cons c cs ih =>
    simp only [List.contains_cons, Bool.or_eq_false_iff] at h
    obtain ⟨h1, h2⟩ := h
    have hc : c ≠ sepChar := by
      intro hh
      subst hh
      simp at h1
    simp only [splitSep, if_neg hc]
    rw [ih h2]

theorem splitSep_append_sepFree (s t : JStr) (h : s.contains sepChar = false) :
    splitSep (s ++ t) = (s ++ (splitSep t).headD []) :: (splitSep t).tail := by
  induction s with
  | nil =>
    cases ht : splitSep t with
    | nil => exact absurd ht (splitSep_ne_nil t)
    | cons a l => simp [ht]
  | cons c cs ih =>
    simp only [List.contains_cons, Bool.or_eq_false_iff] at h
    obtain ⟨h1, h2⟩ := h
    have hc : c ≠ sepChar := by
      intro hh
      subst hh
      simp at h1
    simp only [List.cons_append, splitSep, if_neg hc, List.append_eq]
    rw [ih h2]

theorem splitSep_sep_cons (t : JStr) :
    splitSep (sepChar :: t) = [] :: splitSep t := by
  simp [splitSep]

/-- Splitting a valid path gives an empty leading chunk followed by exactly
the segments. -/
theorem splitSep_validPath (segs : List JStr) (hne : segs ≠ [])
    (hgood : ∀ s ∈ segs, goodSeg s = true) :
    splitSep (sepChar :: joinSegs segs) = [] :: segs := by
  rw [splitSep_sep_cons]
  congr 1
  induction segs with
  | nil => exact absurd rfl hne
  | cons s rest ih =>
    have hs : goodSeg s = true := hgood s (by simp)
    have hsf : s.contains sepChar = false := by
      simp only [goodSeg, Bool.and_eq_true, Bool.not_eq_true'] at hs
      exact hs.2
    cases rest with
    | nil => exact splitSep_sepFree s hsf
    | cons r rest' =>
      have hrest : ∀ x ∈ r :: rest', goodSeg x = true := by
        intro x hx
        exact hgood x (by simp [hx])
      have ihr := ih (by simp) hrest
      show splitSep (s ++ sepChar :: joinSegs (r :: rest')) = s :: r :: rest'
      rw [splitSep_append_sepFree s _ hsf, splitSep_sep_cons, ihr]
      simp

theorem lastIndexOfSep_append (l m : JStr) :
    lastIndexOfSep (l ++ m) =
      match lastIndexOfSep m with
      | some i => some (l.length + i)
      | none => lastIndexOfSep l := by
  induction l with
  | nil =>
    cases h : lastIndexOfSep m with
    | none => simp [h, lastIndexOfSep]
    | some i => simp [h]
  | cons c cs ih =>
    cases h : lastIndexOfSep m with
    | none =>
      simp only [List.cons_append, lastIndexOfSep, List.append_eq, ih, h]
    | some i =>
      simp only [List.cons_append, lastIndexOfSep, List.append_eq, ih, h, List.length_cons]
      have : cs.length + i + 1 = cs.length + 1 + i := by omega
      rw [this]

theorem lastIndexOfSep_sepFree (s : JStr) (h : s.contains sepChar = false) :
    lastIndexOfSep s = none := by
  induction s with
  | nil => rfl
  | cons c cs ih =>
    simp only [List.contains_cons, Bool.or_eq_false_iff] at h
    obtain ⟨h1, h2⟩ := h
    have hc : c ≠ sepChar := by
      intro hh
      subst hh
      simp at h1
    simp [lastIndexOfSep, ih h2, hc]

theorem joinSegs_snoc (init : List JStr) (last : JStr) (h : init ≠ []) :
    joinSegs (init ++ [last]) = joinSegs init ++ sepChar :: last := by
  induction init with
  | nil => exact absurd rfl h
  | cons s rest ih =>
    cases rest with
    | nil => rfl
    | cons r rest' =>
      show joinSegs (s :: ((r :: rest') ++ [last])) = _
      have : joinSegs (s :: ((r :: rest') ++ [last]))
          = s ++ sepChar :: joinSegs ((r :: rest') ++ [last]) := by
        cases rest' <;> rfl
      rw [this, ih (by simp)]
      simp [joinSegs]

theorem goodSeg_sepFree {s : JStr} (h : goodSeg s = true) :
    s.contains sepChar = false := by
  simp only [goodSeg, Bool.and_eq_true, Bool.not_eq_true'] at h
  exact h.2

theorem goodSeg_ne_nil {s : JStr} (h : goodSeg s = true) : s ≠ [] := by
  simp only [goodSeg, Bool.and_eq_true, Bool.not_eq_true'] at h
  intro hs
  subst hs
  simp at h

/-- For a valid path split as initial segments plus a leaf segment, the last
separator sits right before the leaf. -/
theorem lastIndexOfSep_validPath (init : List JStr) (last : JStr)
    (hgood : ∀ s ∈ init ++ [last], goodSeg s = true) :
    lastIndexOfSep (sepChar :: joinSegs (init ++ [last])) =
      some (if init = [] then 0 else (joinSegs init).length + 1) := by
  have hlastf : last.contains sepChar = false :=
    goodSeg_sepFree (hgood last (by simp))
  cases hi : init with
  | nil =>
    simp only [hi, List.nil_append]
    show lastIndexOfSep (sepChar :: last) = some 0
    have : lastIndexOfSep last = none := lastIndexOfSep_sepFree last hlastf
    simp [lastIndexOfSep, this]
  | cons i0 irest =>
    have hne : init ≠ [] := by simp [hi]
    rw [← hi]
    rw [joinSegs_snoc init last hne]
    have : sepChar :: (joinSegs init ++ sepChar :: last)
        = (sepChar :: joinSegs init) ++ (sepChar :: last) := by simp
    rw [this, lastIndexOfSep_append]
    have h1 : lastIndexOfSep (sepChar :: last) = some 0 := by
      have : lastIndexOfSep last = none := lastIndexOfSep_sepFree last hlastf
      simp [lastIndexOfSep, this]
    rw [h1]
    simp only [List.length_cons, Nat.add_zero, if_neg hne]

/-- getPathName of a valid path is the leaf segment. -/
theorem getPathName_validPath (init : List JStr) (last : JStr)
    (hgood : ∀ s ∈ init ++ [last], goodSeg s = true) :
    getPathName (sepChar :: joinSegs (init ++ [last])) = last := by
  unfold getPathName
  rw [lastIndexOfSep_validPath init last hgood]
  cases hi : init with
  | nil => simp [hi, joinSegs]
  | cons i0 irest =>
    have hne : init ≠ [] := by simp [hi]
    rw [← hi]
    simp only [if_neg hne]
    rw [joinSegs_snoc init last hne]
    show List.drop ((joinSegs init).length + 1 + 1) (sepChar :: (joinSegs init ++ sepChar :: last)) = last
    have hsplit : sepChar :: (joinSegs init ++ sepChar :: last)
        = (sepChar :: joinSegs init ++ [sepChar]) ++ last := by simp
    rw [hsplit]
    have hlen : (sepChar :: joinSegs init ++ [sepChar]).length
        = (joinSegs init).length + 1 + 1 := by
      simp [List.length_append]
    rw [← hlen, List.drop_left]

/-- getParentPath of a valid path: the separator alone for a one-segment
path, otherwise the valid path of the initial segments. -/
theorem getParentPath_validPath (init : List JStr) (last : JStr)
    (hgood : ∀ s ∈ init ++ [last], goodSeg s = true) :
    getParentPath (sepChar :: joinSegs (init ++ [last])) =
      some (if init = [] then sepStr else sepChar :: joinSegs init) := by
  unfold getParentPath
  rw [lastIndexOfSep_validPath init last hgood]
  cases hi : init with
  | nil => simp [hi]
  | cons i0 irest =>
    have hne : init ≠ [] := by simp [hi]
    rw [← hi]
    simp only [if_neg hne]
    rw [joinSegs_snoc init last hne]
    show some (List.take ((joinSegs init).length + 1) (sepChar :: (joinSegs init ++ sepChar :: last)))
        = some (sepChar :: joinSegs init)
    have hsplit : sepChar :: (joinSegs init ++ sepChar :: last)
        = (sepChar :: joinSegs init) ++ (sepChar :: last) := by simp
    rw [hsplit]
    have hlen : (sepChar :: joinSegs init).length = (joinSegs init).length + 1 := by simp
    rw [← hlen, List.take_left]

theorem effSegs_sepStr : effSegs sepStr = [] := by decide

theorem effSegs_validPath (segs : List JStr) (hne : segs ≠ [])
    (hgood : ∀ s ∈ segs, goodSeg s = true) :
    effSegs (sepChar :: joinSegs segs) = segs := by
  unfold effSegs
  rw [splitSep_validPath segs hne hgood]
  have hh : List.filter (fun s : JStr => !s.isEmpty) ([] :: segs)
      = List.filter (fun s : JStr => !s.isEmpty) segs := by
    simp [List.filter_cons]
  rw [hh]
  exact List.filter_eq_self.mpr (fun s hs => by
    have := goodSeg_ne_nil (hgood s hs)
    simp [List.isEmpty_iff, this])

theorem validPath_not_isRoot {p : JStr} (h : ValidPath p) : isRoot p = false := by
  obtain ⟨segs, hne, hgood, hp⟩ := h
  cases segs with
  | nil => exact absurd rfl hne
  | cons s rest =>
    have hs : s ≠ [] := goodSeg_ne_nil (hgood s (by simp))
    subst hp
    simp only [isRoot, sepStr, decide_eq_false_iff_not]
    intro hcontra
    cases rest with
    | nil =>
      simp only [joinSegs] at hcontra
      have := List.cons.injEq sepChar (joinSegs [s]) sepChar [] ▸ hcontra
      simp [joinSegs] at hcontra
      exact hs hcontra
    | cons r rest' =>
      simp only [joinSegs] at hcontra
      cases s with
      | nil => exact hs rfl
      | cons a as => simp at hcontra

theorem wfChildren_mem {ch : List (JStr × Entity)} {k : JStr} {c : Entity}
    (h : wfChildren ch = true) (hm : (k, c) ∈ ch) : wfEntity c = true := by
  induction ch with
  | nil => cases hm
  | cons kv rest ih =>
    obtain ⟨k', e'⟩ := kv
    simp only [wfChildren, Bool.and_eq_true] at h
    cases List.mem_cons.mp hm with
    | inl he => cases he; exact h.1
    | inr he => exact ih h.2 he

theorem childLookup_mem {ch : List (JStr × Entity)} {n : JStr} {c : Entity}
    (h : childLookup ch n = some c) : (n, c) ∈ ch := by
  induction ch with
  | nil => cases h
  | cons kv rest ih =>
    obtain ⟨k, e⟩ := kv
    by_cases hk : k = n
    · subst hk
      simp [childLookup] at h
      subst h
      simp
    · simp [childLookup, hk] at h
      exact List.mem_cons_of_mem _ (ih h)

theorem wfEntity_children {e : Entity} {ch : List (JStr × Entity)}
    (hw : wfEntity e = true) (hc : e.children = some ch) :
    e.typ = DIR_TYPE ∧ nodupKeys ch = true ∧ wfChildren ch = true := by
  obtain ⟨n, ty, cr, och, co, mo, ck, cb⟩ := e
  cases och with
  | none => simp [Entity.children] at hc
  | some ch' =>
    simp only [Entity.children, Option.some.injEq] at hc
    subst hc
    simp only [wfEntity, Bool.and_eq_true, beq_iff_eq] at hw
    exact ⟨hw.1.1, hw.1.2, hw.2⟩

theorem wfEntity_noChildren {e : Entity}
    (hw : wfEntity e = true) (hc : e.children = none) : e.typ = ASSET_TYPE := by
  obtain ⟨n, ty, cr, och, co, mo, ck, cb⟩ := e
  cases och with
  | some ch' => simp [Entity.children] at hc
  | none =>
    simp only [wfEntity, beq_iff_eq] at hw
    exact hw

theorem wfEntity_typ_of_nonDir {e : Entity}
    (hw : wfEntity e = true) (ht : e.typ ≠ DIR_TYPE) : e.typ = ASSET_TYPE := by
  cases hc : e.children with
  | none => exact wfEntity_noChildren hw hc
  | some ch => exact absurd (wfEntity_children hw hc).1 ht

/-! ### Walk and modification lemmas -/

theorem walkSegs_cons_skip (e : Entity) {n : JStr} (rest : List JStr)
    (hn : n.isEmpty = true) : walkSegs e (n :: rest) = walkSegs e rest := by
  simp [walkSegs, hn]

theorem walkSegs_cons_noChildren {e : Entity} {n : JStr} (rest : List JStr)
    (hn : n.isEmpty = false) (hch : e.children = none) :
    walkSegs e (n :: rest) = .error "not found - not an entity that has children" := by
  simp [walkSegs, hn, hch]

theorem walkSegs_cons_missing {e : Entity} {n : JStr} {ch : List (JStr × Entity)}
    (rest : List JStr) (hn : n.isEmpty = false) (hch : e.children = some ch)
    (hcl : childLookup ch n = none) :
    walkSegs e (n :: rest) = .error "not found" := by
  simp [walkSegs, hn, hch, hcl]

theorem walkSegs_cons_step {e c : Entity} {n : JStr} {ch : List (JStr × Entity)}
    (rest : List JStr) (hn : n.isEmpty = false) (hch : e.children = some ch)
    (hcl : childLookup ch n = some c) :
    walkSegs e (n :: rest) = walkSegs c rest := by
  simp [walkSegs, hn, hch, hcl]

theorem walkSegs_append (e : Entity) (a b : List JStr) :
    walkSegs e (a ++ b) = (walkSegs e a).bind (fun t => walkSegs t b) := by
  induction a generalizing e with
  | nil => simp [walkSegs, Except.bind]
  | cons n rest ih =>
    rw [List.cons_append]
    cases hn : n.isEmpty with
    | true =>
      rw [walkSegs_cons_skip e _ hn, walkSegs_cons_skip e rest hn]
      exact ih e
    | false =>
      cases hch : e.children with
      | none =>
        rw [walkSegs_cons_noChildren _ hn hch, walkSegs_cons_noChildren rest hn hch]
        rfl
      | some ch =>
        cases hcl : childLookup ch n with
        | none =>
          rw [walkSegs_cons_missing _ hn hch hcl, walkSegs_cons_missing rest hn hch hcl]
          rfl
        | some c =>
          rw [walkSegs_cons_step _ hn hch hcl, walkSegs_cons_step rest hn hch hcl]
          exact ih c

theorem walkSegs_filter (e : Entity) (l : List JStr) :
    walkSegs e l = walkSegs e (l.filter (fun s => !s.isEmpty)) := by
  induction l generalizing e with
  | nil => rfl
  | cons n rest ih =>
    cases hn : n.isEmpty with
    | true =>
      rw [walkSegs_cons_skip e rest hn]
      have : List.filter (fun s : JStr => !s.isEmpty) (n :: rest)
          = List.filter (fun s : JStr => !s.isEmpty) rest := by
        simp [List.filter_cons, hn]
      rw [this]
      exact ih e
    | false =>
      have hf : List.filter (fun s : JStr => !s.isEmpty) (n :: rest)
          = n :: List.filter (fun s : JStr => !s.isEmpty) rest := by
        simp [List.filter_cons, hn]
      rw [hf]
      cases hch : e.children with
      | none =>
        rw [walkSegs_cons_noChildren rest hn hch, walkSegs_cons_noChildren _ hn hch]
      | some ch =>
        cases hcl : childLookup ch n with
        | none =>
          rw [walkSegs_cons_missing rest hn hch hcl, walkSegs_cons_missing _ hn hch hcl]
        | some c =>
          rw [walkSegs_cons_step rest hn hch hcl, walkSegs_cons_step _ hn hch hcl]
          exact ih c

theorem getEntity_eq_walk (root : Entity) (p : JStr) :
    getEntity root p = walkSegs root (effSegs p) := by
  unfold getEntity effSegs
  by_cases hp : p = sepStr
  · subst hp
    rw [if_pos rfl]
    have : splitSep sepStr = [[], []] := by decide
    rw [this]
    rfl
  · rw [if_neg hp]
    exact walkSegs_filter root (splitSep p)

theorem children_withChildren (e : Entity) (x : Option (List (JStr × Entity))) :
    (e.withChildren x).children = x := by
  obtain ⟨n, t, c, ch, co, m, ck, cb⟩ := e
  rfl

theorem modifySegs_cons_skip (f : Entity → Except String Entity) (e : Entity)
    {n : JStr} (rest : List JStr) (hn : n.isEmpty = true) :
    modifySegs f e (n :: rest) = modifySegs f e rest := by
  simp [modifySegs, hn]

theorem modifySegs_cons_noChildren (f : Entity → Except String Entity) {e : Entity}
    {n : JStr} (rest : List JStr) (hn : n.isEmpty = false) (hch : e.children = none) :
    modifySegs f e (n :: rest) = .error "not found - not an entity that has children" := by
  simp [modifySegs, hn, hch]

theorem modifySegs_cons_missing (f : Entity → Except String Entity) {e : Entity}
    {n : JStr} {ch : List (JStr × Entity)} (rest : List JStr)
    (hn : n.isEmpty = false) (hch : e.children = some ch)
    (hcl : childLookup ch n = none) :
    modifySegs f e (n :: rest) = .error "not found" := by
  simp [modifySegs, hn, hch, hcl]

theorem modifySegs_cons_step (f : Entity → Except String Entity) {e c : Entity}
    {n : JStr} {ch : List (JStr × Entity)} (rest : List JStr)
    (hn : n.isEmpty = false) (hch : e.children = some ch)
    (hcl : childLookup ch n = some c) :
    modifySegs f e (n :: rest)
      = (modifySegs f c rest).map (fun c' => e.withChildren (some (setChild ch n c'))) := by
  simp [modifySegs, hn, hch, hcl]

theorem modifySegs_filter (f : Entity → Except String Entity) (e : Entity) (l : List JStr) :
    modifySegs f e l = modifySegs f e (l.filter (fun s => !s.isEmpty)) := by
  induction l generalizing e with
  | nil => rfl
  | cons n rest ih =>
    cases hn : n.isEmpty with
    | true =>
      rw [modifySegs_cons_skip f e rest hn]
      have : List.filter (fun s : JStr => !s.isEmpty) (n :: rest)
          = List.filter (fun s : JStr => !s.isEmpty) rest := by
        simp [List.filter_cons, hn]
      rw [this]
      exact ih e
    | false =>
      have hf : List.filter (fun s : JStr => !s.isEmpty) (n :: rest)
          = n :: List.filter (fun s : JStr => !s.isEmpty) rest := by
        simp [List.filter_cons, hn]
      rw [hf]
      cases hch : e.children with
      | none =>
        rw [modifySegs_cons_noChildren f rest hn hch, modifySegs_cons_noChildren f _ hn hch]
      | some ch =>
        cases hcl : childLookup ch n with
        | none =>
          rw [modifySegs_cons_missing f rest hn hch hcl, modifySegs_cons_missing f _ hn hch hcl]
        | some c =>
          rw [modifySegs_cons_step f rest hn hch hcl, modifySegs_cons_step f _ hn hch hcl]
          rw [ih c]

theorem modifyEntity_eq_modify (root : Entity) (p : JStr) (f : Entity → Except String Entity) :
    modifyEntity root p f = modifySegs f root (effSegs p) := by
  unfold modifyEntity effSegs
  by_cases hp : p = sepStr
  · subst hp
    rw [if_pos rfl]
    have : splitSep sepStr = [[], []] := by decide
    rw [this]
    rfl
  · rw [if_neg hp]
    exact modifySegs_filter f root (splitSep p)

theorem childLookup_setChild (ch : List (JStr × Entity)) (n : JStr) (v : Entity) :
    childLookup (setChild ch n v) n = some v := by
  induction ch with
  | nil => simp [setChild, childLookup]
  | cons kv rest ih =>
    obtain ⟨k, e⟩ := kv
    by_cases hk : k = n
    · subst hk
      simp [setChild, childLookup]
    · simp [setChild, childLookup, hk, ih]

theorem childLookup_none_of_noKey {ch : List (JStr × Entity)} {n : JStr}
    (h : ch.any (fun kv => kv.1 == n) = false) : childLookup ch n = none := by
  induction ch with
  | nil => rfl
  | cons kv rest ih =>
    obtain ⟨k, e⟩ := kv
    simp only [List.any_cons, Bool.or_eq_false_iff] at h
    have hk : k ≠ n := by
      intro hh
      subst hh
      simp at h
    simp [childLookup, hk, ih h.2]

theorem childLookup_removeChild {ch : List (JStr × Entity)} {n : JStr}
    (h : nodupKeys ch = true) : childLookup (removeChild ch n) n = none := by
  induction ch with
  | nil => rfl
  | cons kv rest ih =>
    obtain ⟨k, e⟩ := kv
    simp only [nodupKeys, Bool.and_eq_true, Bool.not_eq_true'] at h
    by_cases hk : k = n
    · subst hk
      simp only [removeChild, if_pos rfl]
      exact childLookup_none_of_noKey h.1
    · simp [removeChild, hk, childLookup, ih h.2]

/-- Modifying along a successful walk succeeds and the new tree walks to the
image of the target. -/
theorem modifySegs_ok (f : Entity → Except String Entity) {e t t' : Entity}
    (segs : List JStr)
    (hw : walkSegs e segs = .ok t) (hf : f t = .ok t') :
    ∃ e', modifySegs f e segs = .ok e' ∧ walkSegs e' segs = .ok t' := by
  induction segs generalizing e with
  | nil =>
    simp only [walkSegs, Except.ok.injEq] at hw
    subst hw
    exact ⟨t', by simp [modifySegs, hf], by simp [walkSegs]⟩
  | cons n rest ih =>
    cases hn : n.isEmpty with
    | true =>
      rw [walkSegs_cons_skip e rest hn] at hw
      obtain ⟨e', h1, h2⟩ := ih hw
      exact ⟨e', by rw [modifySegs_cons_skip f e rest hn]; exact h1,
        by rw [walkSegs_cons_skip e' rest hn]; exact h2⟩
    | false =>
      cases hch : e.children with
      | none => rw [walkSegs_cons_noChildren rest hn hch] at hw; cases hw
      | some ch =>
        cases hcl : childLookup ch n with
        | none => rw [walkSegs_cons_missing rest hn hch hcl] at hw; cases hw
        | some c =>
          rw [walkSegs_cons_step rest hn hch hcl] at hw
          obtain ⟨c', h1, h2⟩ := ih hw
          refine ⟨e.withChildren (some (setChild ch n c')), ?_, ?_⟩
          · rw [modifySegs_cons_step f rest hn hch hcl, h1]
            rfl
          · rw [walkSegs_cons_step rest hn (children_withChildren e _)
              (childLookup_setChild ch n c')]
            exact h2

/-- A successful modification arises from a successful walk and a successful
application of f, and the new tree walks to the image. -/
theorem modifySegs_ok_inv (f : Entity → Except String Entity) {e e' : Entity}
    (segs : List JStr)
    (hm : modifySegs f e segs = .ok e') :
    ∃ t t', walkSegs e segs = .ok t ∧ f t = .ok t' ∧ walkSegs e' segs = .ok t' := by
  induction segs generalizing e e' with
  | nil =>
    simp only [modifySegs] at hm
    exact ⟨e, e', by simp [walkSegs], hm, by simp [walkSegs]⟩
  | cons n rest ih =>
    cases hn : n.isEmpty with
    | true =>
      rw [modifySegs_cons_skip f e rest hn] at hm
      obtain ⟨t, t', h1, h2, h3⟩ := ih hm
      exact ⟨t, t', by rw [walkSegs_cons_skip e rest hn]; exact h1, h2,
        by rw [walkSegs_cons_skip e' rest hn]; exact h3⟩
    | false =>
      cases hch : e.children with
      | none => rw [modifySegs_cons_noChildren f rest hn hch] at hm; cases hm
      | some ch =>
        cases hcl : childLookup ch n with
        | none => rw [modifySegs_cons_missing f rest hn hch hcl] at hm; cases hm
        | some c =>
          rw [modifySegs_cons_step f rest hn hch hcl] at hm
          cases hrec : modifySegs f c rest with
          | error msg => rw [hrec] at hm; cases hm
          | ok c' =>
            rw [hrec] at hm
            simp only [Except.map, Except.ok.injEq] at hm
            obtain ⟨t, t', h1, h2, h3⟩ := ih hrec
            refine ⟨t, t', ?_, h2, ?_⟩
            · rw [walkSegs_cons_step rest hn hch hcl]
              exact h1
            · rw [← hm]
              rw [walkSegs_cons_step rest hn (children_withChildren e _)
                (childLookup_setChild ch n c')]
              exact h3

/-- Walking preserves well-formedness. -/
theorem walkSegs_wf {e t : Entity} (segs : List JStr)
    (hw : wfEntity e = true) (h : walkSegs e segs = .ok t) : wfEntity t = true := by
  induction segs generalizing e with
  | nil =>
    simp only [walkSegs, Except.ok.injEq] at h
    subst h
    exact hw
  | cons n rest ih =>
    cases hn : n.isEmpty with
    | true =>
      rw [walkSegs_cons_skip e rest hn] at h
      exact ih hw h
    | false =>
      cases hch : e.children with
      | none => rw [walkSegs_cons_noChildren rest hn hch] at h; cases h
      | some ch =>
        cases hcl : childLookup ch n with
        | none => rw [walkSegs_cons_missing rest hn hch hcl] at h; cases h
        | some c =>
          rw [walkSegs_cons_step rest hn hch hcl] at h
          have hwc : wfEntity c = true :=
            wfChildren_mem (wfEntity_children hw hch).2.2 (childLookup_mem hcl)
          exact ih hwc h

/-- Inversion of a successful one-segment step of the walk. -/
theorem walkSegs_cons_ok {e t : Entity} {n : JStr} {rest : List JStr}
    (hn : n.isEmpty = false) (h : walkSegs e (n :: rest) = .ok t) :
    ∃ ch c, e.children = some ch ∧ childLookup ch n = some c ∧ walkSegs c rest = .ok t := by
  cases hch : e.children with
  | none => rw [walkSegs_cons_noChildren rest hn hch] at h; cases h
  | some ch =>
    cases hcl : childLookup ch n with
    | none => rw [walkSegs_cons_missing rest hn hch hcl] at h; cases h
    | some c =>
      rw [walkSegs_cons_step rest hn hch hcl] at h
      exact ⟨ch, c, rfl, hcl, h⟩

/-- Decomposition of a valid path into parent path and leaf name, together
with the effective segments of both. -/
theorem validPath_decomp {p : JStr} (h : ValidPath p) :
    ∃ (init : List JStr) (leaf : JStr),
      (∀ s ∈ init ++ [leaf], goodSeg s = true) ∧
      p = sepChar :: joinSegs (init ++ [leaf]) ∧
      getPathName p = leaf ∧
      parentPathOrNull p = (if init = [] then sepStr else sepChar :: joinSegs init) ∧
      effSegs p = init ++ [leaf] ∧
      effSegs (parentPathOrNull p) = init := by
  obtain ⟨segs, hne, hgood, hp⟩ := h
  obtain ⟨init, leaf, hsegs⟩ : ∃ init leaf, segs = init ++ [leaf] := by
    rcases List.eq_nil_or_concat segs with hnil | ⟨L, b, hc⟩
    · exact absurd hnil hne
    · exact ⟨L, b, by simpa [List.concat_eq_append] using hc⟩
  subst hsegs
  subst hp
  have hgood' : ∀ s ∈ init ++ [leaf], goodSeg s = true := hgood
  have hpp : parentPathOrNull (sepChar :: joinSegs (init ++ [leaf]))
      = (if init = [] then sepStr else sepChar :: joinSegs init) := by
    unfold parentPathOrNull
    rw [getParentPath_validPath init leaf hgood']
    rfl
  refine ⟨init, leaf, hgood', rfl, getPathName_validPath init leaf hgood', hpp, ?_, ?_⟩
  · exact effSegs_validPath (init ++ [leaf]) (by simp) hgood'
  · rw [hpp]
    cases hi : init with
    | nil => simpa [hi] using effSegs_sepStr
    | cons i0 irest =>
      have hne2 : init ≠ [] := by simp [hi]
      rw [← hi, if_neg hne2]
      exact effSegs_validPath init hne2
        (fun s hs => hgood' s (List.mem_append_left _ hs))

/-- Binding an Except value yields ok exactly through two ok steps. -/
theorem except_bind_ok {α β : Type} {x : Except String α} {f : α → Except String β} {b : β}
    (h : x.bind f = .ok b) : ∃ a, x = .ok a ∧ f a = .ok b := by
  cases x with
  | error m => cases h
  | ok a => exact ⟨a, rfl, h⟩

theorem getInfoOp_ok_of {root : Entity} {p : JStr} {e : Entity}
    (h : getEntity root p = .ok e) : getInfoOp root p = .ok (infoFromEntity e) := by
  unfold getInfoOp
  rw [h]

theorem getInfoOp_ok_inv {root : Entity} {p : JStr} {o : Obj}
    (h : getInfoOp root p = .ok o) :
    ∃ e, getEntity root p = .ok e ∧ o = infoFromEntity e := by
  unfold getInfoOp at h
  cases hge : getEntity root p with
  | error m => rw [hge] at h; cases h
  | ok e =>
    rw [hge] at h
    cases h
    exact ⟨e, rfl, rfl⟩

theorem getInfoOp_error_of {root : Entity} {p : JStr} {msg : String}
    (h : getEntity root p = .error msg) :
    getInfoOp root p = .error ("path does not exist " ++ String.mk p) := by
  unfold getInfoOp
  rw [h]

theorem getInfoOp_error_inv {root : Entity} {p : JStr} {m : String}
    (h : getInfoOp root p = .error m) : ∃ msg, getEntity root p = .error msg := by
  unfold getInfoOp at h
  cases hge : getEntity root p with
  | error msg => exact ⟨msg, rfl⟩
  | ok e => rw [hge] at h; cases h

theorem existsOp_false_iff {root : Entity} {p : JStr} :
    existsOp root p = false ↔ ∃ msg, getEntity root p = .error msg := by
  unfold existsOp
  cases hge : getEntity root p <;> simp

theorem DIR_ne_ASSET : DIR_TYPE ≠ ASSET_TYPE := by decide

theorem wf_dir_children {e : Entity} (hw : wfEntity e = true)
    (ht : e.typ = DIR_TYPE) : ∃ ch, e.children = some ch := by
  cases hc : e.children with
  | none =>
    have := wfEntity_noChildren hw hc
    rw [ht] at this
    exact absurd this DIR_ne_ASSET
  | some ch => exact ⟨ch, rfl⟩

theorem wf_nonDir_noChildren {e : Entity} (hw : wfEntity e = true)
    (ht : e.typ ≠ DIR_TYPE) : e.children = none := by
  cases hc : e.children with
  | none => rfl
  | some ch => exact absurd (wfEntity_children hw hc).1 ht

theorem setChildOf_ok {e : Entity} {ch : List (JStr × Entity)} (n : JStr) (v : Entity)
    (hc : e.children = some ch) :
    setChildOf n v e = .ok (e.withChildren (some (setChild ch n v))) := by
  obtain ⟨nm, ty, cr, och, co, mo, ck, cb⟩ := e
  cases och with
  | none => simp [Entity.children] at hc
  | some ch' =>
    simp only [Entity.children, Option.some.injEq] at hc
    subst hc
    rfl

theorem removeChildOf_ok {e : Entity} {ch : List (JStr × Entity)} (n : JStr)
    (hc : e.children = some ch) :
    removeChildOf n e = .ok (e.withChildren (some (removeChild ch n))) := by
  obtain ⟨nm, ty, cr, och, co, mo, ck, cb⟩ := e
  cases och with
  | none => simp [Entity.children] at hc
  | some ch' =>
    simp only [Entity.children, Option.some.injEq] at hc
    subst hc
    rfl

theorem goodSeg_not_isEmpty {s : JStr} (h : goodSeg s = true) : s.isEmpty = false := by
  simp only [goodSeg, Bool.and_eq_true, Bool.not_eq_true'] at h
  exact h.1

/-! ### Info view lemmas -/

theorem objGet_infoFromEntity_type (e : Entity) :
    objGet (infoFromEntity e) "type" = some (.vs e.typ) := by
  unfold infoFromEntity
  by_cases h : e.typ = ASSET_TYPE <;> simp [h, objGet]

theorem isType_infoFromEntity (e : Entity) (t : JStr) :
    isType (infoFromEntity e) t = (e.typ == t) := by
  simp only [isType, objGet_infoFromEntity_type]
  cases h : e.typ == t with
  | true => simp [beq_iff_eq] at h; simp [h]
  | false =>
    have : e.typ ≠ t := by
      intro hh
      subst hh
      simp at h
    simp [this]

/-! ### Subscription lemmas -/

theorem contains_filter_self_false (l : List JStr) (id : JStr) :
    (l.filter (fun x => !(x == id))).contains id = false := by
  induction l with
  | nil => rfl
  | cons a rest ih =>
    by_cases ha : a = id
    · subst ha
      simp [List.filter_cons, ih]
    · have hba : (a == id) = false := by
        simp [ha]
      have hab : (id == a) = false := by
        simp [Ne.symm ha]
      simp only [List.filter_cons, hba, Bool.not_false, if_pos rfl]
      show List.elem id (a :: List.filter (fun x => !(x == id)) rest) = false
      simp only [List.elem, hab]
      exact ih

theorem isSubscribedOp_unsubscribe (subs : Subscribers) (id : JStr) :
    isSubscribedOp (unsubscribeOp subs id) id = false := by
  unfold unsubscribeOp
  cases h : isSubscribedOp subs id with
  | false => simp [h]
  | true =>
    simp only [h, if_pos rfl]
    exact contains_filter_self_false subs id

/-! ### Rounding lemma for the transfer rate -/

theorem jsRound_eq_round (a b : Nat) (hb : 0 < b) :
    (jsRound a b : ℤ) = round ((a : ℚ) / (b : ℚ)) := by
  rw [round_eq]
  have hb' : (b : ℚ) ≠ 0 := Nat.cast_ne_zero.mpr (by omega)
  have h1 : (a : ℚ) / (b : ℚ) + 1 / 2 = ((2 * a + b : ℕ) : ℚ) / ((2 * b : ℕ) : ℚ) := by
    push_cast
    field_simp
    ring
  rw [h1, Rat.floor_natCast_div_natCast]
  unfold jsRound
  exact (Int.natCast_div _ _).symm

theorem Entity.typ_updateContent (e : Entity) (c : List (List Nat)) :
    (e.updateContent c).typ = e.typ := by
  obtain ⟨n, t, cr, ch, co, m, ck, cb⟩ := e
  rfl

theorem Entity.content_updateContent (e : Entity) (c : List (List Nat)) :
    (e.updateContent c).content = some c := by
  obtain ⟨n, t, cr, ch, co, m, ck, cb⟩ := e
  rfl

theorem isType_true_iff {e : Entity} {t : JStr} :
    isType (infoFromEntity e) t = true ↔ e.typ = t := by
  rw [isType_infoFromEntity]
  exact beq_iff_eq

theorem isType_false_iff {e : Entity} {t : JStr} :
    isType (infoFromEntity e) t = false ↔ e.typ ≠ t := by
  rw [isType_infoFromEntity]
  simp

/-! ### Patch application lemmas for updateAssetInfo -/

theorem applyInfoKey_name (e : Entity) (v : Val) :
    applyInfoKey e "name" v = e.setName (match v with | .vs x => x | _ => e.name) := by
  obtain ⟨nm, ty, cr, och, co, mo, ck, cb⟩ := e
  cases v <;> rfl

theorem applyInfoKey_created (e : Entity) (v : Val) :
    applyInfoKey e "created" v = e.setCreated (match v with | .vn x => x | _ => e.created) := by
  obtain ⟨nm, ty, cr, och, co, mo, ck, cb⟩ := e
  cases v <;> rfl

theorem applyInfoKey_type (e : Entity) (v : Val) :
    applyInfoKey e "type" v = e.setTyp (match v with | .vs x => x | _ => e.typ) := by
  obtain ⟨nm, ty, cr, och, co, mo, ck, cb⟩ := e
  cases v <;> rfl

theorem applyInfoKey_modified (e : Entity) (v : Val) :
    applyInfoKey e "modified" v = e.setModified (match v with | .vn x => x | _ => e.modified) := by
  obtain ⟨nm, ty, cr, och, co, mo, ck, cb⟩ := e
  cases v <;> rfl

theorem applyInfoKey_checkedOut (e : Entity) (v : Val) :
    applyInfoKey e "checkedOut" v
      = e.setCheckedOut (match v with | .vb x => x | _ => e.checkedOut) := by
  obtain ⟨nm, ty, cr, och, co, mo, ck, cb⟩ := e
  cases v <;> rfl

theorem applyInfoKey_checkedOutBy (e : Entity) (v : Val) :
    applyInfoKey e "checkedOutBy" v
      = e.setCheckedOutBy (match v with | .vs x => x | _ => e.checkedOutBy) := by
  obtain ⟨nm, ty, cr, och, co, mo, ck, cb⟩ := e
  cases v <;> rfl

theorem applyInfoKey_contentType (e : Entity) (v : Val) :
    applyInfoKey e "contentType" v = e := by
  cases v <;> rfl

theorem applyInfoKey_size (e : Entity) (v : Val) :
    applyInfoKey e "size" v = e := by
  cases v <;> rfl

theorem objGet_none_of_no_key {o : Obj} {k : String}
    (h : ∀ kv ∈ o, kv.1 ≠ k) : objGet o k = none := by
  induction o with
  | nil => rfl
  | cons kv rest ih =>
    obtain ⟨k', v⟩ := kv
    have hk : k' ≠ k := h (k', v) (by simp)
    simp only [objGet, if_neg hk]
    exact ih (fun x hx => h x (by simp [hx]))

theorem objGet_append_disjoint (a junk : Obj) (k : String)
    (h : ∀ kv ∈ junk, kv.1 ≠ k) : objGet (a ++ junk) k = objGet a k := by
  induction a with
  | nil =>
    simp only [List.nil_append, objGet]
    exact objGet_none_of_no_key h
  | cons kv rest ih =>
    obtain ⟨k', v⟩ := kv
    by_cases hk : k' = k
    · subst hk
      simp [objGet]
    · simp only [List.cons_append, objGet, if_neg hk]
      exact ih

theorem dataEvent_emit (t0 : Nat) (s : MonState) (le : LastEmit) (now len : Nat)
    (hle : s.lastEmit = some le) (hread : le.read ≤ s.totalRead) (hlen : 0 < len)
    (hw : EMIT_DELAY < now - le.timestamp) :
    dataEvent t0 s now len
      = (⟨s.totalRead + len, computeRate s.rate (s.totalRead + len) (now - t0),
          some ⟨now, s.totalRead + len, computeRate s.rate (s.totalRead + len) (now - t0)⟩⟩,
         some ⟨s.totalRead + len, computeRate s.rate (s.totalRead + len) (now - t0)⟩) := by
  have hne : le.read ≠ s.totalRead + len := by omega
  simp [dataEvent, shouldEmitProgressNoData, emitTransferProgress, shouldEmitProgress,
    hle, hw, hne]

theorem dataEvent_skip (t0 : Nat) (s : MonState) (le : LastEmit) (now len : Nat)
    (hle : s.lastEmit = some le) (hw : ¬ EMIT_DELAY < now - le.timestamp) :
    dataEvent t0 s now len = (⟨s.totalRead + len, s.rate, some le⟩, none) := by
  simp [dataEvent, shouldEmitProgressNoData, emitTransferProgress, shouldEmitProgress,
    hle, hw]

theorem processChunks_cons (t0 : Nat) (s : MonState) (c : Nat × Nat)
    (rest : List (Nat × Nat)) :
    processChunks t0 s (c :: rest)
      = ((processChunks t0 (dataEvent t0 s c.1 c.2).1 rest).1,
         (dataEvent t0 s c.1 c.2).2.toList
           ++ (processChunks t0 (dataEvent t0 s c.1 c.2).1 rest).2) := rfl

theorem processChunks_run (t0 : Nat) :
    ∀ (chunks : List (Nat × Nat)) (s : MonState) (le : LastEmit),
    s.lastEmit = some le → s.rate = le.rate → le.read ≤ s.totalRead →
    (∀ c ∈ chunks, 0 < c.2) →
    ∃ le2,
      (processChunks t0 s chunks).1.lastEmit = some le2
      ∧ (processChunks t0 s chunks).1.rate = le2.rate
      ∧ le2.read ≤ (processChunks t0 s chunks).1.totalRead
      ∧ (processChunks t0 s chunks).1.totalRead
          = s.totalRead + (chunks.map Prod.snd).sum
      ∧ (∀ ev ∈ (processChunks t0 s chunks).2, s.totalRead < ev.read)
      ∧ List.Pairwise (fun a b : ProgressEv => a.read < b.read)
          (processChunks t0 s chunks).2
      ∧ (((processChunks t0 s chunks).2 = [] ∧ le2 = le)
          ∨ ∃ pre evl, (processChunks t0 s chunks).2 = pre ++ [evl]
              ∧ evl.read = le2.read) := by
  intro chunks
  induction chunks with
  | nil =>
    intro s le hle hrate hread _
    refine ⟨le, ?_⟩
    simp [processChunks, hle, hrate, hread]
  | cons c rest ih =>
    intro s le hle hrate hread hpos
    have hlen : 0 < c.2 := hpos c (List.mem_cons_self c rest)
    have hrest : ∀ x ∈ rest, 0 < x.2 := fun x hx => hpos x (List.mem_cons_of_mem c hx)
    by_cases hw : EMIT_DELAY < c.1 - le.timestamp
    · have hde := dataEvent_emit t0 s le c.1 c.2 hle hread hlen hw
      rw [processChunks_cons, hde]
      simp only [Option.toList_some, List.singleton_append]
      obtain ⟨le2, h1, h2, h3, h4, h5, h6, h7⟩ :=
        ih ⟨s.totalRead + c.2, computeRate s.rate (s.totalRead + c.2) (c.1 - t0),
            some ⟨c.1, s.totalRead + c.2, computeRate s.rate (s.totalRead + c.2) (c.1 - t0)⟩⟩
          ⟨c.1, s.totalRead + c.2, computeRate s.rate (s.totalRead + c.2) (c.1 - t0)⟩
          rfl rfl (Nat.le_refl _) hrest
      refine ⟨le2, h1, h2, h3, ?_, ?_, ?_, ?_⟩
      · rw [h4]
        simp only [List.map_cons, List.sum_cons]
        omega
      · intro ev hev
        rcases List.mem_cons.mp hev with hev | hev
        · subst hev
          simp only
          omega
        · have := h5 ev hev
          simp only at this
          omega
      · refine List.pairwise_cons.mpr ⟨?_, h6⟩
        intro ev hev
        have := h5 ev hev
        simpa using this
      · rcases h7 with ⟨hnil, hl2⟩ | ⟨pre, evl, hsplit, hlast⟩
        · refine Or.inr ⟨[], ⟨s.totalRead + c.2,
            computeRate s.rate (s.totalRead + c.2) (c.1 - t0)⟩, ?_, ?_⟩
          · rw [hnil]
            rfl
          · rw [hl2]
        · exact Or.inr ⟨⟨s.totalRead + c.2,
            computeRate s.rate (s.totalRead + c.2) (c.1 - t0)⟩ :: pre, evl,
            by rw [hsplit]; rfl, hlast⟩
    · have hde := dataEvent_skip t0 s le c.1 c.2 hle hw
      rw [processChunks_cons, hde]
      simp only [Option.toList_none, List.nil_append]
      obtain ⟨le2, h1, h2, h3, h4, h5, h6, h7⟩ :=
        ih ⟨s.totalRead + c.2, s.rate, some le⟩ le rfl hrate (by simp only; omega) hrest
      refine ⟨le2, h1, h2, h3, ?_, ?_, h6, h7⟩
      · rw [h4]
        simp only [List.map_cons, List.sum_cons]
        omega
      · intro ev hev
        have := h5 ev hev
        simp only at this
        omega

theorem nullable_iff (r : Regex) : nullable r = true ↔ RMatches r [] := by
  induction r with
  | fail =>
    constructor
    · intro h
      simp [nullable] at h
    · intro h
      cases h
  | eps => exact ⟨fun _ => .eps, fun _ => rfl⟩
  | chr c =>
    constructor
    · intro h
      simp [nullable] at h
    · intro h
      cases h
  | dot =>
    constructor
    · intro h
      simp [nullable] at h
    · intro h
      cases h
  | seq a b iha ihb =>
    constructor
    · intro h
      simp only [nullable, Bool.and_eq_true] at h
      simpa using RMatches.seqm (iha.mp h.1) (ihb.mp h.2)
    · intro h
      generalize hw : ([] : List Char) = w0 at h
      cases h with
      | seqm ha hb =>
        obtain ⟨h1, h2⟩ := List.append_eq_nil.mp hw.symm
        subst h1
        subst h2
        simp only [nullable, Bool.and_eq_true]
        exact ⟨iha.mpr ha, ihb.mpr hb⟩
  | alt a b iha ihb =>
    constructor
    · intro h
      simp only [nullable, Bool.or_eq_true] at h
      rcases h with h | h
      · exact .altl (iha.mp h)
      · exact .altr (ihb.mp h)
    · intro h
      cases h with
      | altl ha => simp [nullable, iha.mpr ha]
      | altr hb => simp [nullable, ihb.mpr hb]
  | star a iha => exact ⟨fun _ => .starNil a, fun _ => rfl⟩

theorem deriv_sound (c : Char) :
    ∀ (r : Regex) (l : List Char), RMatches (deriv r c) l → RMatches r (c :: l) := by
  intro r
  induction r with
  | fail =>
    intro l h
    cases h
  | eps =>
    intro l h
    cases h
  | chr c0 =>
    intro l h
    by_cases hc : c0 = c
    · subst hc
      simp only [deriv, if_pos rfl] at h
      cases h
      exact .chr c0
    · simp only [deriv, if_neg hc] at h
      cases h
  | dot =>
    intro l h
    simp only [deriv] at h
    cases h
    exact .dot c
  | seq a b iha ihb =>
    intro l h
    by_cases hn : nullable a = true
    · simp only [deriv, if_pos hn] at h
      cases h with
      | altl h1 =>
        cases h1 with
        | seqm ha hb =>
          rename_i la lb
          exact List.cons_append c la lb ▸ RMatches.seqm (iha la ha) hb
      | altr h2 =>
        have ha0 : RMatches a [] := (nullable_iff a).mp hn
        simpa using RMatches.seqm ha0 (ihb l h2)
    · simp only [deriv, if_neg hn] at h
      cases h with
      | seqm ha hb =>
        rename_i la lb
        exact List.cons_append c la lb ▸ RMatches.seqm (iha la ha) hb
  | alt a b iha ihb =>
    intro l h
    simp only [deriv] at h
    cases h with
    | altl ha => exact .altl (iha l ha)
    | altr hb => exact .altr (ihb l hb)
  | star a iha =>
    intro l h
    simp only [deriv] at h
    cases h with
    | seqm ha hb =>
      rename_i la lb
      exact List.cons_append c la lb ▸ RMatches.starCons (iha la ha) hb

theorem deriv_complete :
    ∀ {r : Regex} {w : List Char}, RMatches r w →
    ∀ {c : Char} {l : List Char}, w = c :: l → RMatches (deriv r c) l := by
  intro r w h
  induction h with
  | eps =>
    intro c l heq
    cases heq
  | chr c0 =>
    intro c l heq
    cases heq
    simp only [deriv, if_pos rfl]
    exact .eps
  | dot c0 =>
    intro c l heq
    cases heq
    simp only [deriv]
    exact .eps
  | seqm ha hb iha ihb =>
    rename_i a b la lb
    intro c l heq
    cases la with
    | nil =>
      simp only [List.nil_append] at heq
      have hn : nullable a = true := (nullable_iff a).mpr ha
      simp only [deriv, if_pos hn]
      exact .altr (ihb heq)
    | cons c0 la2 =>
      simp only [List.cons_append, List.cons.injEq] at heq
      obtain ⟨hc0, hrest⟩ := heq
      subst hc0
      have hda : RMatches (deriv a c0) la2 := iha rfl
      have hstep : RMatches (.seq (deriv a c0) b) (la2 ++ lb) := .seqm hda hb
      by_cases hn : nullable a = true
      · simp only [deriv, if_pos hn]
        exact hrest ▸ RMatches.altl hstep
      · simp only [deriv, if_neg hn]
        exact hrest ▸ hstep
  | altl ha iha =>
    intro c l heq
    simp only [deriv]
    exact .altl (iha heq)
  | altr hb ihb =>
    intro c l heq
    simp only [deriv]
    exact .altr (ihb heq)
  | starNil a =>
    intro c l heq
    cases heq
  | starCons h1 h2 ih1 ih2 =>
    rename_i a l1 l2
    intro c l heq
    cases l1 with
    | nil =>
      simp only [List.nil_append] at heq
      exact ih2 heq
    | cons c0 l12 =>
      simp only [List.cons_append, List.cons.injEq] at heq
      obtain ⟨hc0, hrest⟩ := heq
      subst hc0
      simp only [deriv]
      exact hrest ▸ RMatches.seqm (ih1 rfl) h2

theorem matchHere_iff (l : List Char) :
    ∀ r : Regex, matchHere r l = true
      ↔ ∃ pre post, l = pre ++ post ∧ RMatches r pre := by
  induction l with
  | nil =>
    intro r
    simp only [matchHere]
    rw [nullable_iff]
    constructor
    · intro h
      exact ⟨[], [], rfl, h⟩
    · rintro ⟨pre, post, heq, hm⟩
      obtain ⟨h1, h2⟩ := List.append_eq_nil.mp heq.symm
      subst h1
      exact hm
  | cons c cs ih =>
    intro r
    simp only [matchHere, Bool.or_eq_true]
    constructor
    · intro h
      rcases h with h | h
      · exact ⟨[], c :: cs, rfl, (nullable_iff r).mp h⟩
      · obtain ⟨pre, post, heq, hm⟩ := (ih (deriv r c)).mp h
        exact ⟨c :: pre, post, by simp [heq], deriv_sound c r pre hm⟩
    · rintro ⟨pre, post, heq, hm⟩
      cases pre with
      | nil =>
        exact Or.inl ((nullable_iff r).mpr hm)
      | cons c0 pre2 =>
        simp only [List.cons_append, List.cons.injEq] at heq
        obtain ⟨hc0, hrest⟩ := heq
        subst hc0
        refine Or.inr ((ih (deriv r c)).mpr ⟨pre2, post, hrest, ?_⟩)
        exact deriv_complete hm rfl

theorem rsearch_iff (r : Regex) (l : List Char) :
    rsearch r l = true
      ↔ ∃ pre mid post, l = pre ++ (mid ++ post) ∧ RMatches r mid := by
  induction l with
  | nil =>
    simp only [rsearch]
    rw [matchHere_iff]
    constructor
    · rintro ⟨pre, post, heq, hm⟩
      exact ⟨[], pre, post, by simp [heq], hm⟩
    · rintro ⟨pre, mid, post, heq, hm⟩
      obtain ⟨h1, h2⟩ := List.append_eq_nil.mp heq.symm
      obtain ⟨h3, h4⟩ := List.append_eq_nil.mp h2
      exact ⟨mid, post, by simp [h1, h3, h4], hm⟩
  | cons c cs ih =>
    simp only [rsearch, Bool.or_eq_true]
    constructor
    · intro h
      rcases h with h | h
      · obtain ⟨mid, post, heq, hm⟩ := (matchHere_iff (c :: cs) r).mp h
        exact ⟨[], mid, post, by simp [heq], hm⟩
      · obtain ⟨pre, mid, post, heq, hm⟩ := ih.mp h
        exact ⟨c :: pre, mid, post, by simp [heq], hm⟩
    · rintro ⟨pre, mid, post, heq, hm⟩
      cases pre with
      | nil =>
        refine Or.inl ((matchHere_iff (c :: cs) r).mpr ⟨mid, post, ?_, hm⟩)
        simpa using heq
      | cons c0 pre2 =>
        simp only [List.cons_append, List.cons.injEq] at heq
        obtain ⟨hc0, hrest⟩ := heq
        exact Or.inr (ih.mpr ⟨pre2, mid, post, hrest, hm⟩)

theorem literalR_matches : ∀ (w l : List Char), RMatches (literalR w) l ↔ l = w := by
  intro w
  induction w with
  | nil =>
    intro l
    constructor
    · intro h
      simp only [literalR] at h
      cases h
      rfl
    · rintro rfl
      exact .eps
  | cons c w2 ih =>
    intro l
    constructor
    · intro h
      simp only [literalR] at h
      cases h with
      | seqm ha hb =>
        cases ha
        rw [(ih _).mp hb]
        rfl
    · rintro rfl
      exact RMatches.seqm (.chr c) ((ih w2).mpr rfl)

theorem plainChar_spec {c : Char} (h : plainChar c = true) :
    ¬ (c = '.' ∨ c = '+' ∨ c = '*' ∨ c = '?') := by
  intro hc
  rcases hc with rfl | rfl | rfl | rfl <;> exact absurd h (by decide)

theorem parseAtoms_plain : ∀ (s : JStr) (acc : List Regex),
    (∀ c ∈ s, plainChar c = true) →
    parseAtoms acc s = (s.map Regex.chr).reverse ++ acc := by
  intro s
  induction s with
  | nil =>
    intro acc _
    rfl
  | cons c rest ih =>
    intro acc h
    have hc := plainChar_spec (h c (List.mem_cons_self c rest))
    have h1 : ¬ (c = '.') := fun hx => hc (Or.inl hx)
    have h2 : ¬ (c = '+') := fun hx => hc (Or.inr (Or.inl hx))
    have h3 : ¬ (c = '*') := fun hx => hc (Or.inr (Or.inr (Or.inl hx)))
    have h4 : ¬ (c = '?') := fun hx => hc (Or.inr (Or.inr (Or.inr hx)))
    have hrest : ∀ x ∈ rest, plainChar x = true :=
      fun x hx => h x (List.mem_cons_of_mem c hx)
    simp only [parseAtoms, if_neg h1, if_neg h2, if_neg h3, if_neg h4]
    rw [ih (Regex.chr c :: acc) hrest]
    simp [List.append_assoc]

theorem literalR_foldr (s : JStr) :
    literalR s = s.foldr (fun c r => Regex.seq (.chr c) r) .eps := by
  induction s with
  | nil => rfl
  | cons c cs ih => simp [literalR, ih]

theorem foldl_chr_rev : ∀ (s : JStr) (r0 : Regex),
    ((s.map Regex.chr).reverse).foldl (fun r a => Regex.seq a r) r0
      = s.foldr (fun c r => Regex.seq (.chr c) r) r0 := by
  intro s
  induction s with
  | nil =>
    intro r0
    rfl
  | cons c cs ih =>
    intro r0
    simp only [List.map_cons, List.reverse_cons, List.foldl_append, List.foldr_cons]
    rw [ih r0]
    rfl

theorem newRegExp_plain (s : JStr) (h : ∀ c ∈ s, plainChar c = true) :
    newRegExp s = literalR s := by
  unfold newRegExp
  rw [parseAtoms_plain s [] h]
  simp only [List.append_nil]
  rw [foldl_chr_rev, literalR_foldr]

theorem rsearch_literal (s l : JStr) :
    rsearch (literalR s) l = true ↔ ∃ pre post, l = pre ++ (s ++ post) := by
  rw [rsearch_iff]
  constructor
  · rintro ⟨pre, mid, post, heq, hm⟩
    rw [(literalR_matches s mid).mp hm] at heq
    exact ⟨pre, post, heq⟩
  · rintro ⟨pre, post, heq⟩
    exact ⟨pre, s, post, heq, (literalR_matches s s).mpr rfl⟩

/-! ### The queue loop and its structural characterization -/

theorem entitySize_pos (e : Entity) : 0 < entitySize e := by
  obtain ⟨n, t, c, och, co, m, ck, cb⟩ := e
  cases och <;> simp [entitySize]

theorem queueSize_append (a b : List Entity) :
    queueSize (a ++ b) = queueSize a + queueSize b := by
  simp [queueSize]

theorem childrenSize_eq (ch : List (JStr × Entity)) :
    childrenSize ch = queueSize (ch.map Prod.snd) := by
  induction ch with
  | nil => rfl
  | cons kv rest ih =>
    obtain ⟨k, c⟩ := kv
    simp [childrenSize, queueSize] at ih ⊢
    omega

theorem queueSize_filter_le (p : Entity → Bool) (l : List Entity) :
    queueSize (l.filter p) ≤ queueSize l := by
  induction l with
  | nil => simp
  | cons e rest ih =>
    by_cases hp : p e = true
    · simp [List.filter_cons, hp, queueSize] at ih ⊢
      omega
    · simp [List.filter_cons, hp, queueSize] at ih ⊢
      omega

theorem childEntities_filter_size (e : Entity) (p : Entity → Bool) :
    queueSize ((childEntities e).filter p) < entitySize e := by
  obtain ⟨n, t, c, och, co, m, ck, cb⟩ := e
  cases och with
  | none => simp [childEntities, Entity.children, queueSize, entitySize]
  | some ch =>
    have h1 := queueSize_filter_le p (ch.map Prod.snd)
    have h2 : entitySize (Entity.mk n t c (some ch) co m ck cb) = 1 + childrenSize ch := rfl
    have h3 : childEntities (Entity.mk n t c (some ch) co m ck cb) = ch.map Prod.snd := rfl
    rw [h2, h3, childrenSize_eq]
    omega

theorem collectCh_fst (r : Regex) (ch : List (JStr × Entity)) :
    (collectCh r ch).1
      = ((ch.map Prod.snd).filter
          (fun c => !(c.typ == DIR_TYPE) && rsearch r c.name)).map infoFromEntity := by
  induction ch with
  | nil => rfl
  | cons kv rest ih =>
    obtain ⟨k, c⟩ := kv
    by_cases hd : (c.typ == DIR_TYPE) = true
    · simp [collectCh, hd, ih, List.filter_cons]
    · by_cases hr : rsearch r c.name = true
      · simp [collectCh, hd, hr, ih, List.filter_cons]
      · simp [collectCh, hd, hr, ih, List.filter_cons]

theorem collectCh_snd (r : Regex) (ch : List (JStr × Entity)) :
    (collectCh r ch).2
      = ((((ch.map Prod.snd).filter (fun c => c.typ == DIR_TYPE)).reverse).map
          (collectE r)).flatten := by
  induction ch with
  | nil => rfl
  | cons kv rest ih =>
    obtain ⟨k, c⟩ := kv
    by_cases hd : (c.typ == DIR_TYPE) = true
    · simp [collectCh, hd, ih, List.filter_cons]
    · simp [collectCh, hd, ih, List.filter_cons]

theorem collectE_eq (r : Regex) (e : Entity) :
    collectE r e
      = ((childEntities e).filter
          (fun c => !(c.typ == DIR_TYPE) && rsearch r c.name)).map infoFromEntity
        ++ ((((childEntities e).filter (fun c => c.typ == DIR_TYPE)).reverse).map
          (collectE r)).flatten := by
  obtain ⟨n, t, c, och, co, m, ck, cb⟩ := e
  cases och with
  | none => rfl
  | some ch =>
    have h3 : childEntities (Entity.mk n t c (some ch) co m ck cb) = ch.map Prod.snd := rfl
    have h4 : collectE r (Entity.mk n t c (some ch) co m ck cb)
        = (collectCh r ch).1 ++ (collectCh r ch).2 := rfl
    rw [h4, h3, collectCh_fst, collectCh_snd]

theorem findLoop_succ (r : Regex) (fuel : Nat) (h : Entity) (t : List Entity)
    (acc : List Obj) :
    findLoop r (fuel + 1) (h :: t) acc
      = findLoop r fuel
          ((h :: t).dropLast
            ++ (childEntities ((h :: t).getLast (by simp))).filter
                (fun c => c.typ == DIR_TYPE))
          (acc ++ ((childEntities ((h :: t).getLast (by simp))).filter
              (fun c => !(c.typ == DIR_TYPE) && rsearch r c.name)).map infoFromEntity) :=
  rfl

theorem findLoop_collect (r : Regex) :
    ∀ (fuel : Nat) (q : List Entity) (acc : List Obj), queueSize q ≤ fuel →
    findLoop r fuel q acc = acc ++ ((q.reverse.map (collectE r)).flatten) := by
  intro fuel
  induction fuel with
  | zero =>
    intro q acc hq
    cases q with
    | nil => simp [findLoop]
    | cons h t =>
      exfalso
      have := entitySize_pos h
      simp [queueSize] at hq
      omega
  | succ fuel ih =>
    intro q acc hq
    cases q with
    | nil => simp [findLoop]
    | cons h t =>
      have hne : h :: t ≠ [] := by simp
      have hsplit : (h :: t).dropLast ++ [(h :: t).getLast hne] = h :: t :=
        List.dropLast_append_getLast hne
      have hqs : queueSize (h :: t)
          = queueSize ((h :: t).dropLast) + entitySize ((h :: t).getLast hne) := by
        conv_lhs => rw [← hsplit]
        rw [queueSize_append]
        simp [queueSize]
      have hkids := childEntities_filter_size ((h :: t).getLast hne)
        (fun c => c.typ == DIR_TYPE)
      have hbound : queueSize ((h :: t).dropLast
          ++ (childEntities ((h :: t).getLast hne)).filter (fun c => c.typ == DIR_TYPE))
          ≤ fuel := by
        rw [queueSize_append]
        omega
      rw [findLoop_succ, ih _ _ hbound]
      conv_rhs => rw [← hsplit]
      rw [List.append_assoc]
      congr 1
      simp only [List.reverse_append, List.reverse_cons, List.reverse_nil,
        List.nil_append, List.cons_append, List.map_append, List.map_cons,
        List.flatten_append, List.flatten_cons, List.map_nil, List.flatten_nil,
        List.append_nil]
      rw [collectE_eq r ((h :: t).getLast hne)]
      simp [List.append_assoc]

theorem findAssetsOp_collect (root : Entity) (term : SearchTerm) :
    findAssetsOp root term = collectE (searchTermToRegex term) root := by
  unfold findAssetsOp
  rw [findLoop_collect _ _ _ _ (by simp [queueSize])]
  simp

theorem subEntities_none {e : Entity} (hc : e.children = none) : subEntities e = [] := by
  obtain ⟨n, t, c, och, co, m, ck, cb⟩ := e
  cases och with
  | none => rfl
  | some ch => simp [Entity.children] at hc

mutual

theorem collectE_sound (r : Regex) : ∀ (e : Entity) (o : Obj), o ∈ collectE r e →
    ∃ c, c ∈ subEntities e ∧ (c.typ == DIR_TYPE) = false ∧ rsearch r c.name = true
      ∧ o = infoFromEntity c
  | .mk n t cr none co mo ck cb, o, ho => by
    exact absurd ho (by simp [collectE])
  | .mk n t cr (some ch) co mo ck cb, o, ho => by
    have h4 : collectE r (Entity.mk n t cr (some ch) co mo ck cb)
        = (collectCh r ch).1 ++ (collectCh r ch).2 := rfl
    rw [h4] at ho
    rcases List.mem_append.mp ho with h | h
    · exact collectCh_sound r ch o (Or.inl h)
    · exact collectCh_sound r ch o (Or.inr h)

theorem collectCh_sound (r : Regex) : ∀ (ch : List (JStr × Entity)) (o : Obj),
    (o ∈ (collectCh r ch).1 ∨ o ∈ (collectCh r ch).2) →
    ∃ c, c ∈ subListEntities ch ∧ (c.typ == DIR_TYPE) = false ∧ rsearch r c.name = true
      ∧ o = infoFromEntity c
  | [], o, ho => by
    exact absurd ho (by simp [collectCh])
  | (k, c0) :: rest, o, ho => by
    by_cases hd : (c0.typ == DIR_TYPE) = true
    · have he : collectCh r ((k, c0) :: rest)
          = ((collectCh r rest).1, (collectCh r rest).2 ++ collectE r c0) := by
        simp [collectCh, hd]
      rw [he] at ho
      rcases ho with h | h
      · obtain ⟨c, hc, hnd, hrs, hoe⟩ := collectCh_sound r rest o (Or.inl h)
        exact ⟨c, List.mem_cons_of_mem _ (List.mem_append_right _ hc), hnd, hrs, hoe⟩
      · rcases List.mem_append.mp h with h2 | h2
        · obtain ⟨c, hc, hnd, hrs, hoe⟩ := collectCh_sound r rest o (Or.inr h2)
          exact ⟨c, List.mem_cons_of_mem _ (List.mem_append_right _ hc), hnd, hrs, hoe⟩
        · obtain ⟨c, hc, hnd, hrs, hoe⟩ := collectE_sound r c0 o h2
          exact ⟨c, List.mem_cons_of_mem _ (List.mem_append_left _ hc), hnd, hrs, hoe⟩
    · have hd2 : (c0.typ == DIR_TYPE) = false := by simpa using hd
      have he : collectCh r ((k, c0) :: rest)
          = ((if rsearch r c0.name then [infoFromEntity c0] else [])
              ++ (collectCh r rest).1, (collectCh r rest).2) := by
        simp [collectCh, hd2]
      rw [he] at ho
      rcases ho with h | h
      · rcases List.mem_append.mp h with h2 | h2
        · by_cases hr : rsearch r c0.name = true
          · rw [if_pos hr] at h2
            have ho2 : o = infoFromEntity c0 := by simpa using h2
            exact ⟨c0, List.mem_cons_self _ _, hd2, hr, ho2⟩
          · rw [if_neg hr] at h2
            cases h2
        · obtain ⟨c, hc, hnd, hrs, hoe⟩ := collectCh_sound r rest o (Or.inl h2)
          exact ⟨c, List.mem_cons_of_mem _ (List.mem_append_right _ hc), hnd, hrs, hoe⟩
      · obtain ⟨c, hc, hnd, hrs, hoe⟩ := collectCh_sound r rest o (Or.inr h)
        exact ⟨c, List.mem_cons_of_mem _ (List.mem_append_right _ hc), hnd, hrs, hoe⟩

end

mutual

theorem collectE_complete (r : Regex) : ∀ (e : Entity), wfEntity e = true →
    ∀ c, c ∈ subEntities e → (c.typ == DIR_TYPE) = false → rsearch r c.name = true →
    infoFromEntity c ∈ collectE r e
  | .mk n t cr none co mo ck cb, _, c, hc, _, _ => by
    exact absurd hc (by simp [subEntities])
  | .mk n t cr (some ch) co mo ck cb, hw, c, hc, hnd, hrs => by
    have hwch : wfChildren ch = true := by
      simp only [wfEntity, Bool.and_eq_true] at hw
      exact hw.2
    have h4 : collectE r (Entity.mk n t cr (some ch) co mo ck cb)
        = (collectCh r ch).1 ++ (collectCh r ch).2 := rfl
    rw [h4]
    rcases collectCh_complete r ch hwch c hc hnd hrs with h | h
    · exact List.mem_append_left _ h
    · exact List.mem_append_right _ h

theorem collectCh_complete (r : Regex) : ∀ (ch : List (JStr × Entity)),
    wfChildren ch = true → ∀ c, c ∈ subListEntities ch →
    (c.typ == DIR_TYPE) = false → rsearch r c.name = true →
    (infoFromEntity c ∈ (collectCh r ch).1 ∨ infoFromEntity c ∈ (collectCh r ch).2)
  | [], _, c, hc, _, _ => by
    exact absurd hc (by simp [subListEntities])
  | (k, c0) :: rest, hw, c, hc, hnd, hrs => by
    have hw2 : wfEntity c0 = true ∧ wfChildren rest = true := by
      simpa only [wfChildren, Bool.and_eq_true] using hw
    rcases List.mem_cons.mp hc with rfl | hc2
    · have he : (collectCh r ((k, c) :: rest)).1
          = (if rsearch r c.name then [infoFromEntity c] else [])
            ++ (collectCh r rest).1 := by
        simp [collectCh, hnd]
      refine Or.inl ?_
      rw [he, if_pos hrs]
      exact List.mem_append_left _ (by simp)
    · rcases List.mem_append.mp hc2 with hcin | hcrest
      · by_cases hd0 : (c0.typ == DIR_TYPE) = true
        · have he : (collectCh r ((k, c0) :: rest)).2
              = (collectCh r rest).2 ++ collectE r c0 := by
            simp [collectCh, hd0]
          refine Or.inr ?_
          rw [he]
          exact List.mem_append_right _ (collectE_complete r c0 hw2.1 c hcin hnd hrs)
        · exfalso
          cases hch : c0.children with
          | none =>
            rw [subEntities_none hch] at hcin
            cases hcin
          | some ch2 =>
            have := (wfEntity_children hw2.1 hch).1
            rw [this] at hd0
            exact hd0 (by simp)
      · have hrec := collectCh_complete r rest hw2.2 c hcrest hnd hrs
        by_cases hd0 : (c0.typ == DIR_TYPE) = true
        · have he : collectCh r ((k, c0) :: rest)
              = ((collectCh r rest).1, (collectCh r rest).2 ++ collectE r c0) := by
            simp [collectCh, hd0]
          rw [he]
          rcases hrec with h | h
          · exact Or.inl h
          · exact Or.inr (List.mem_append_left _ h)
        · have hd2 : (c0.typ == DIR_TYPE) = false := by simpa using hd0
          have he : collectCh r ((k, c0) :: rest)
              = ((if rsearch r c0.name then [infoFromEntity c0] else [])
                  ++ (collectCh r rest).1, (collectCh r rest).2) := by
            simp [collectCh, hd2]
          rw [he]
          rcases hrec with h | h
          · exact Or.inl (List.mem_append_right _ h)
          · exact Or.inr h

end

mutual

theorem subEntities_wf : ∀ (e : Entity), wfEntity e = true →
    ∀ c, c ∈ subEntities e → wfEntity c = true
  | .mk n t cr none co mo ck cb, _, c, hc => by
    exact absurd hc (by simp [subEntities])
  | .mk n t cr (some ch) co mo ck cb, hw, c, hc => by
    have hwch : wfChildren ch = true := by
      simp only [wfEntity, Bool.and_eq_true] at hw
      exact hw.2
    exact subListEntities_wf ch hwch c hc

theorem subListEntities_wf : ∀ (ch : List (JStr × Entity)), wfChildren ch = true →
    ∀ c, c ∈ subListEntities ch → wfEntity c = true
  | [], _, c, hc => by
    exact absurd hc (by simp [subListEntities])
  | (k, c0) :: rest, hw, c, hc => by
    have hw2 : wfEntity c0 = true ∧ wfChildren rest = true := by
      simpa only [wfChildren, Bool.and_eq_true] using hw
    rcases List.mem_cons.mp hc with rfl | hc2
    · exact hw2.1
    · rcases List.mem_append.mp hc2 with hcin | hcrest
      · exact subEntities_wf c0 hw2.1 c hcin
      · exact subListEntities_wf rest hw2.2 c hcrest

end

theorem objGet_infoFromEntity_name (e : Entity) :
    objGet (infoFromEntity e) "name" = some (.vs e.name) := by
  by_cases h : e.typ = ASSET_TYPE <;> simp [infoFromEntity, objGet, h]

theorem infoFromEntity_name_inj {a b : Entity}
    (h : infoFromEntity a = infoFromEntity b) : a.name = b.name := by
  have ha := objGet_infoFromEntity_name a
  rw [h, objGet_infoFromEntity_name] at ha
  simpa using ha.symm

/-! ### Claim theorems -/

/-- C5: for every repository state, createDirectory invoked on the root path
always fails with the root-operation error (cannot create root directory)
and deleteDirectory invoked on the root path always fails with the
root-operation error (cannot delete root directory); in both cases the
returned state equals the input state, so no backend operation was performed
and the tree is unchanged. -/
theorem C5_root_operations (root : Entity) (p : JStr) (now : Nat)
    (h : isRoot p = true) :
    createDirectoryOp root p now = (.error "cannot create root directory", root) ∧
      deleteDirectoryOp root p = (.error "cannot delete root directory", root) := by
  unfold createDirectoryOp deleteDirectoryOp
  simp [h]

/-- C5 witness: the root checks fire on the separator path over a concrete
one-directory repository. -/
theorem C5_root_operations_witness :
    isRoot sepStr = true ∧
      (createDirectoryOp (Entity.mk [] DIR_TYPE 0 (some []) none 0 false []) sepStr 7
          = (.error "cannot create root directory",
             Entity.mk [] DIR_TYPE 0 (some []) none 0 false []) ∧
        deleteDirectoryOp (Entity.mk [] DIR_TYPE 0 (some []) none 0 false []) sepStr
          = (.error "cannot delete root directory",
             Entity.mk [] DIR_TYPE 0 (some []) none 0 false [])) :=
  ⟨by decide, C5_root_operations _ sepStr 7 (by decide)⟩

/-- C7: callback delivery (emitCallback) and transferprogress event delivery
(the gate inside _emitTransferProgress) happen exactly when the context
subscriber id is absent/empty or currently in the subscriber set at delivery
time; in particular, after the subscriber id is unsubscribed, neither the
callback nor any event of the in-flight operation is delivered, and the
suppression is silent: delivery is a boolean gate outside the state
transformers, producing no error value. -/
theorem C7_subscriber_gating :
    (∀ (subs : Subscribers) (sid : JStr),
        emitCallbackDelivers subs sid = true ↔ (sid = [] ∨ isSubscribedOp subs sid = true)) ∧
      (∀ (subs : Subscribers) (sid : JStr) (st : Option LastEmit) (now pread prate : Nat)
          (force : Bool),
        emitTransferProgressGated subs sid st now pread prate force = true
          ↔ (shouldEmitProgress st now force pread prate = true
              ∧ (sid = [] ∨ isSubscribedOp subs sid = true))) ∧
      (∀ (subs : Subscribers) (sid : JStr), sid ≠ [] →
        emitCallbackDelivers (unsubscribeOp subs sid) sid = false) ∧
      (∀ (subs : Subscribers) (sid : JStr) (st : Option LastEmit) (now pread prate : Nat)
          (force : Bool), sid ≠ [] →
        emitTransferProgressGated (unsubscribeOp subs sid) sid st now pread prate force = false) := by
  have hbase : ∀ (subs : Subscribers) (sid : JStr),
      emitCallbackDelivers subs sid = true ↔ (sid = [] ∨ isSubscribedOp subs sid = true) := by
    intro subs sid
    unfold emitCallbackDelivers
    simp [List.isEmpty_iff]
  have hunsub : ∀ (subs : Subscribers) (sid : JStr), sid ≠ [] →
      emitCallbackDelivers (unsubscribeOp subs sid) sid = false := by
    intro subs sid hne
    unfold emitCallbackDelivers
    simp [List.isEmpty_iff, hne, isSubscribedOp_unsubscribe]
  refine ⟨hbase, ?_, hunsub, ?_⟩
  · intro subs sid st now pread prate force
    unfold emitTransferProgressGated
    rw [Bool.and_eq_true]
    exact and_congr Iff.rfl (hbase subs sid)
  · intro subs sid st now pread prate force hne
    unfold emitTransferProgressGated
    rw [hunsub subs sid hne]
    simp

/-- C7 witness: a concrete subscriber that unsubscribes mid-flight receives
no callback. -/
theorem C7_subscriber_gating_witness :
    "ui".data ≠ ([] : JStr) ∧
      emitCallbackDelivers (unsubscribeOp (subscribeOp [] "ui".data) "ui".data) "ui".data
        = false :=
  ⟨by decide, C7_subscriber_gating.2.2.1 (subscribeOp [] "ui".data) "ui".data (by decide)⟩

/-- C2: the code keeps info.modified frozen at creation time.  Creating an
asset and then successfully replacing its content leaves modified (and
created) exactly at the creation timestamp even though the content visibly
changed: the in-memory store defines updateModified on every asset object
but never calls it, and updateContent only replaces the content field.  The
claim of a strictly increasing modified timestamp therefore fails on this
input. -/
theorem C2_modified_frozen_on_update :
    (createAssetOp (Entity.mk [] DIR_TYPE 0 (some []) none 0 false [])
        "/a.txt".data [[104, 105]] 100).1.isOk = true ∧
    (updateAssetOp (createAssetOp (Entity.mk [] DIR_TYPE 0 (some []) none 0 false [])
        "/a.txt".data [[104, 105]] 100).2 "/a.txt".data [[103, 104, 105]]).1.isOk = true ∧
    (getAssetOp (updateAssetOp (createAssetOp (Entity.mk [] DIR_TYPE 0 (some []) none 0 false [])
        "/a.txt".data [[104, 105]] 100).2 "/a.txt".data [[103, 104, 105]]).2
        "/a.txt".data).toOption = some [[103, 104, 105]] ∧
    ((getInfoOp (createAssetOp (Entity.mk [] DIR_TYPE 0 (some []) none 0 false [])
        "/a.txt".data [[104, 105]] 100).2 "/a.txt".data).toOption.bind
        (fun o => objGet o "modified")) = some (.vn 100) ∧
    ((getInfoOp (updateAssetOp (createAssetOp (Entity.mk [] DIR_TYPE 0 (some []) none 0 false [])
        "/a.txt".data [[104, 105]] 100).2 "/a.txt".data [[103, 104, 105]]).2
        "/a.txt".data).toOption.bind (fun o => objGet o "modified")) = some (.vn 100) ∧
    ((getInfoOp (updateAssetOp (createAssetOp (Entity.mk [] DIR_TYPE 0 (some []) none 0 false [])
        "/a.txt".data [[104, 105]] 100).2 "/a.txt".data [[103, 104, 105]]).2
        "/a.txt".data).toOption.bind (fun o => objGet o "created")) = some (.vn 100) := by
  decide

/-- C8: whenever the transfer rate is recomputed (elapsed time positive),
the stored value equals round(bytesSoFar / elapsedMs) floored at one, hence
is at least one; while elapsed time is zero the previous value is kept, so a
rate that started at zero remains zero.  The data handler applies exactly
this computation to its rate accumulator when the recomputation guard
passes. -/
theorem C8_rate_computation (rate totalRead elapsed : Nat) :
    (0 < elapsed →
      (computeRate rate totalRead elapsed : ℤ)
          = max 1 (round ((totalRead : ℚ) / (elapsed : ℚ)))
        ∧ 1 ≤ computeRate rate totalRead elapsed)
      ∧ (elapsed = 0 → computeRate rate totalRead elapsed = rate)
      ∧ (elapsed = 0 → computeRate 0 totalRead elapsed = 0)
      ∧ (∀ (t0 : Nat) (s : MonState) (now len : Nat),
          (dataEvent t0 s now len).1.rate
            = if shouldEmitProgressNoData s.lastEmit now then
                computeRate s.rate (s.totalRead + len) (now - t0)
              else s.rate) := by
  refine ⟨?_, ?_, ?_, ?_⟩
  · intro he
    have hr := jsRound_eq_round totalRead elapsed he
    have hcr : computeRate rate totalRead elapsed
        = if jsRound totalRead elapsed = 0 then 1 else jsRound totalRead elapsed := by
      unfold computeRate
      rw [if_pos he]
    constructor
    · rw [hcr]
      by_cases h0 : jsRound totalRead elapsed = 0
      · rw [if_pos h0]
        rw [h0] at hr
        simp only [Nat.cast_zero] at hr
        rw [← hr]
        simp
      · rw [if_neg h0]
        have h1 : (1 : ℤ) ≤ (jsRound totalRead elapsed : ℤ) := by
          exact_mod_cast Nat.one_le_iff_ne_zero.mpr h0
        rw [hr] at h1
        rw [hr, max_eq_right h1]
    · rw [hcr]
      by_cases h0 : jsRound totalRead elapsed = 0
      · rw [if_pos h0]
      · rw [if_neg h0]
        omega
  · intro he
    subst he
    simp [computeRate]
  · intro he
    subst he
    simp [computeRate]
  · intro t0 s now len
    rfl

/-- C1: for every well-formed state and valid non-root path whose parent
exists and is a directory and which does not yet exist, createAsset followed
by getAsset yields a stream whose concatenated bytes equal the written
content; and for every existing asset, updateAsset followed by getAsset
yields the new content. -/
theorem C1_create_update_roundtrip :
    (∀ (root : Entity) (p : JStr) (chunks : List (List Nat)) (now : Nat),
        wfEntity root = true → ValidPath p → existsOp root p = false →
        (∃ pinfo, getInfoOp root (parentPathOrNull p) = .ok pinfo
            ∧ isType pinfo DIR_TYPE = true) →
        ∃ info root',
          createAssetOp root p chunks now = (.ok info, root')
            ∧ ∃ cs, getAssetOp root' p = .ok cs ∧ cs.flatten = chunks.flatten) ∧
    (∀ (root : Entity) (p : JStr) (chunks2 : List (List Nat)),
        (∃ info0, getInfoOp root p = .ok info0 ∧ isType info0 ASSET_TYPE = true) →
        ∃ info root',
          updateAssetOp root p chunks2 = (.ok info, root')
            ∧ ∃ cs, getAssetOp root' p = .ok cs ∧ cs.flatten = chunks2.flatten) := by
  constructor
  · intro root p chunks now hwf hvp hex hpar
    obtain ⟨init, leaf, hgood, hpform, hleaf, hppform, heff, heffpp⟩ := validPath_decomp hvp
    obtain ⟨pinfo, hpi, hpt⟩ := hpar
    obtain ⟨pe, hgepe, hpinfo⟩ := getInfoOp_ok_inv hpi
    subst hpinfo
    have hptyp : pe.typ = DIR_TYPE := isType_true_iff.mp hpt
    have hwalkpe : walkSegs root init = .ok pe := by
      rw [← heffpp, ← getEntity_eq_walk]
      exact hgepe
    have hwfpe : wfEntity pe = true := walkSegs_wf init hwf hwalkpe
    obtain ⟨ch, hch⟩ := wf_dir_children hwfpe hptyp
    have hsc : setChildOf (getPathName p) ((getAssetInfo p now).updateContent chunks) pe
        = .ok (pe.withChildren
            (some (setChild ch (getPathName p) ((getAssetInfo p now).updateContent chunks)))) :=
      setChildOf_ok _ _ hch
    obtain ⟨root', hmod, hwalk'⟩ := modifySegs_ok _ init hwalkpe hsc
    have hce : createEntity root p ((getAssetInfo p now).updateContent chunks) = .ok root' := by
      unfold createEntity
      rw [modifyEntity_eq_modify, heffpp]
      exact hmod
    have hleafne : leaf.isEmpty = false := goodSeg_not_isEmpty (hgood leaf (by simp))
    have hlookup : childLookup
        (setChild ch (getPathName p) ((getAssetInfo p now).updateContent chunks)) leaf
        = some ((getAssetInfo p now).updateContent chunks) := by
      rw [hleaf]
      exact childLookup_setChild ch leaf _
    have hge' : getEntity root' p = .ok ((getAssetInfo p now).updateContent chunks) := by
      rw [getEntity_eq_walk, heff, walkSegs_append, hwalk']
      have hb : Except.bind (Except.ok (pe.withChildren
            (some (setChild ch (getPathName p) ((getAssetInfo p now).updateContent chunks)))))
          (fun t => walkSegs t [leaf])
          = walkSegs (pe.withChildren
              (some (setChild ch (getPathName p) ((getAssetInfo p now).updateContent chunks))))
            [leaf] := rfl
      rw [hb, walkSegs_cons_step [] hleafne (children_withChildren pe _) hlookup]
      rfl
    have htypA : ((getAssetInfo p now).updateContent chunks).typ = ASSET_TYPE := by
      rw [Entity.typ_updateContent]
      rfl
    have hop : createAssetOp root p chunks now
        = (.ok (infoFromEntity ((getAssetInfo p now).updateContent chunks)), root') := by
      unfold createAssetOp
      simp [hex, hpi, hpt, hce, getInfoOp_ok_of hge']
    refine ⟨_, root', hop, chunks, ?_, rfl⟩
    unfold getAssetOp
    simp [getInfoOp_ok_of hge', isType_infoFromEntity, htypA, hge',
      Entity.content_updateContent]
  · intro root p chunks2 hassets
    obtain ⟨info0, hi0, ht0⟩ := hassets
    obtain ⟨e, hge, hinfo0⟩ := getInfoOp_ok_inv hi0
    subst hinfo0
    have htyp : e.typ = ASSET_TYPE := isType_true_iff.mp ht0
    have hwalk : walkSegs root (effSegs p) = .ok e := by
      rw [← getEntity_eq_walk]
      exact hge
    obtain ⟨root', hmod, hwalk'⟩ := modifySegs_ok
      (fun x => Except.ok (x.updateContent chunks2)) (effSegs p) hwalk rfl
    have hme : modifyEntity root p (fun x => Except.ok (x.updateContent chunks2)) = .ok root' := by
      rw [modifyEntity_eq_modify]
      exact hmod
    have hge' : getEntity root' p = .ok (e.updateContent chunks2) := by
      rw [getEntity_eq_walk]
      exact hwalk'
    have htyp' : (e.updateContent chunks2).typ = ASSET_TYPE := by
      rw [Entity.typ_updateContent]
      exact htyp
    have hop : updateAssetOp root p chunks2
        = (.ok (infoFromEntity (e.updateContent chunks2)), root') := by
      unfold updateAssetOp
      simp [hi0, ht0, hme, getInfoOp_ok_of hge']
    refine ⟨_, root', hop, chunks2, ?_, rfl⟩
    unfold getAssetOp
    simp [getInfoOp_ok_of hge', isType_infoFromEntity, htyp', hge',
      Entity.content_updateContent]

/-- C1 witness: create and update of /a.txt under a concrete one-directory
root round-trip their content. -/
theorem C1_create_update_roundtrip_witness :
    (wfEntity (Entity.mk [] DIR_TYPE 0 (some []) none 0 false []) = true
      ∧ ValidPath "/a.txt".data
      ∧ existsOp (Entity.mk [] DIR_TYPE 0 (some []) none 0 false []) "/a.txt".data = false
      ∧ (∃ info root',
          createAssetOp (Entity.mk [] DIR_TYPE 0 (some []) none 0 false [])
              "/a.txt".data [[104, 105]] 5 = (.ok info, root')
            ∧ ∃ cs, getAssetOp root' "/a.txt".data = .ok cs ∧ cs.flatten = [[104, 105]].flatten)) := by
  refine ⟨by decide, ⟨["a.txt".data], by simp, by decide, by decide⟩, by decide, ?_⟩
  exact C1_create_update_roundtrip.1 _ _ [[104, 105]] 5 (by decide)
    ⟨["a.txt".data], by simp, by decide, by decide⟩ (by decide)
    ⟨infoFromEntity (Entity.mk [] DIR_TYPE 0 (some []) none 0 false []), by rfl, by decide⟩

/-- C6: for every well-formed state and valid path whose parent path does
not resolve or is not a directory, createAsset reports an error, returns the
state unchanged (so no write stream was requested from the backend), and the
path still does not exist afterwards: the asset is never partially created. -/
theorem C6_create_asset_parent_missing (root : Entity) (p : JStr)
    (chunks : List (List Nat)) (now : Nat)
    (hwf : wfEntity root = true) (hvp : ValidPath p)
    (hpar : (∃ msg, getInfoOp root (parentPathOrNull p) = .error msg)
        ∨ (∃ pinfo, getInfoOp root (parentPathOrNull p) = .ok pinfo
            ∧ isType pinfo DIR_TYPE = false)) :
    (∃ msg, (createAssetOp root p chunks now).1 = .error msg)
      ∧ (createAssetOp root p chunks now).2 = root
      ∧ existsOp root p = false := by
  obtain ⟨init, leaf, hgood, hpform, hleaf, hppform, heff, heffpp⟩ := validPath_decomp hvp
  have hleafne : leaf.isEmpty = false := goodSeg_not_isEmpty (hgood leaf (by simp))
  have hex : existsOp root p = false := by
    rw [existsOp_false_iff, getEntity_eq_walk, heff, walkSegs_append]
    rcases hpar with ⟨msg, hperr⟩ | ⟨pinfo, hpok, hpt⟩
    · obtain ⟨m2, hm2⟩ := getInfoOp_error_inv hperr
      have hwalkerr : walkSegs root init = .error m2 := by
        rw [← heffpp, ← getEntity_eq_walk]
        exact hm2
      rw [hwalkerr]
      exact ⟨m2, rfl⟩
    · obtain ⟨pe, hgepe, hpinfo⟩ := getInfoOp_ok_inv hpok
      subst hpinfo
      have hwalkpe : walkSegs root init = .ok pe := by
        rw [← heffpp, ← getEntity_eq_walk]
        exact hgepe
      have hwfpe : wfEntity pe = true := walkSegs_wf init hwf hwalkpe
      have hnt : pe.typ ≠ DIR_TYPE := isType_false_iff.mp hpt
      have hch : pe.children = none := wf_nonDir_noChildren hwfpe hnt
      rw [hwalkpe]
      have hb : Except.bind (Except.ok pe) (fun t => walkSegs t [leaf])
          = walkSegs pe [leaf] := rfl
      rw [hb, walkSegs_cons_noChildren [] hleafne hch]
      exact ⟨_, rfl⟩
  have herr : ∃ msg, createAssetOp root p chunks now = (.error msg, root) := by
    rcases hpar with ⟨msg, hperr⟩ | ⟨pinfo, hpok, hpt⟩
    · refine ⟨msg, ?_⟩
      unfold createAssetOp
      simp [hex, hperr]
    · refine ⟨("cannot create asset " ++ String.mk p ++ " beneath entity type"), ?_⟩
      unfold createAssetOp
      simp [hex, hpok, hpt]
  obtain ⟨msg, hmsg⟩ := herr
  exact ⟨⟨msg, by rw [hmsg]⟩, by rw [hmsg], hex⟩

/-- C6 witness: creating /missing/a.txt under an empty root fails, leaves
the state unchanged and the path nonexistent. -/
theorem C6_create_asset_parent_missing_witness :
    wfEntity (Entity.mk [] DIR_TYPE 0 (some []) none 0 false []) = true
      ∧ ValidPath "/missing/a.txt".data
      ∧ ((∃ msg, (createAssetOp (Entity.mk [] DIR_TYPE 0 (some []) none 0 false [])
            "/missing/a.txt".data [[104]] 3).1 = .error msg)
          ∧ (createAssetOp (Entity.mk [] DIR_TYPE 0 (some []) none 0 false [])
              "/missing/a.txt".data [[104]] 3).2
            = Entity.mk [] DIR_TYPE 0 (some []) none 0 false []
          ∧ existsOp (Entity.mk [] DIR_TYPE 0 (some []) none 0 false [])
              "/missing/a.txt".data = false) := by
  refine ⟨by decide, ⟨["missing".data, "a.txt".data], by simp, by decide, by decide⟩, ?_⟩
  exact C6_create_asset_parent_missing _ _ [[104]] 3 (by decide)
    ⟨["missing".data, "a.txt".data], by simp, by decide, by decide⟩
    (Or.inl ⟨"path does not exist /missing", by rfl⟩)

/-- C9: for every well-formed state and valid path holding a directory (no
emptiness condition), deleteDirectory succeeds, and afterwards neither the
path nor any path extending its effective segments exists: the entire
subtree is removed in one operation. -/
theorem C9_delete_directory_subtree (root : Entity) (p : JStr)
    (hwf : wfEntity root = true) (hvp : ValidPath p)
    (hdir : ∃ dinfo, getInfoOp root p = .ok dinfo ∧ isType dinfo DIR_TYPE = true) :
    ∃ root', deleteDirectoryOp root p = (.ok (), root')
      ∧ ∀ q, (∃ rest, effSegs q = effSegs p ++ rest) → existsOp root' q = false := by
  obtain ⟨init, leaf, hgood, hpform, hleaf, hppform, heff, heffpp⟩ := validPath_decomp hvp
  have hleafne : leaf.isEmpty = false := goodSeg_not_isEmpty (hgood leaf (by simp))
  obtain ⟨dinfo, hdi, hdt⟩ := hdir
  obtain ⟨e, hge, hdinfo⟩ := getInfoOp_ok_inv hdi
  subst hdinfo
  have hwalkfull : walkSegs root (init ++ [leaf]) = .ok e := by
    rw [← heff, ← getEntity_eq_walk]
    exact hge
  rw [walkSegs_append] at hwalkfull
  obtain ⟨pe, hwalkpe, hstep⟩ := except_bind_ok hwalkfull
  obtain ⟨ch, c, hch, hcl, _⟩ := walkSegs_cons_ok hleafne hstep
  have hwfpe : wfEntity pe = true := walkSegs_wf init hwf hwalkpe
  have hnodup : nodupKeys ch = true := (wfEntity_children hwfpe hch).2.1
  have hrc : removeChildOf (getPathName p) pe
      = .ok (pe.withChildren (some (removeChild ch (getPathName p)))) :=
    removeChildOf_ok _ hch
  obtain ⟨root', hmod, hwalk'⟩ := modifySegs_ok _ init hwalkpe hrc
  have hde : deleteEntity root p = .ok root' := by
    unfold deleteEntity
    rw [modifyEntity_eq_modify, heffpp]
    exact hmod
  have hop : deleteDirectoryOp root p = (.ok (), root') := by
    unfold deleteDirectoryOp
    simp [validPath_not_isRoot hvp, hdi, hdt, hde]
  refine ⟨root', hop, ?_⟩
  intro q hq
  obtain ⟨rest, hqeff⟩ := hq
  rw [existsOp_false_iff, getEntity_eq_walk, hqeff, heff]
  rw [show (init ++ [leaf]) ++ rest = init ++ ([leaf] ++ rest) by simp]
  rw [walkSegs_append, hwalk']
  have hb : Except.bind (Except.ok (pe.withChildren (some (removeChild ch (getPathName p)))))
      (fun t => walkSegs t ([leaf] ++ rest))
      = walkSegs (pe.withChildren (some (removeChild ch (getPathName p)))) ([leaf] ++ rest) := rfl
  rw [hb]
  have hclnone : childLookup (removeChild ch (getPathName p)) leaf = none := by
    rw [hleaf]
    exact childLookup_removeChild hnodup
  rw [show ([leaf] ++ rest : List JStr) = leaf :: rest by simp]
  rw [walkSegs_cons_missing rest hleafne (children_withChildren pe _) hclnone]
  exact ⟨_, rfl⟩

/-- C9 witness: deleting the nonempty directory /d (holding an asset and a
subdirectory with another asset) succeeds and removes the whole subtree. -/
theorem C9_delete_directory_subtree_witness :
    wfEntity (Entity.mk [] DIR_TYPE 0
        (some [("d".data, Entity.mk "d".data DIR_TYPE 1
          (some [("x.txt".data, Entity.mk "x.txt".data ASSET_TYPE 2 none (some [[1]]) 2 false []),
                 ("s".data, Entity.mk "s".data DIR_TYPE 3
                   (some [("y.txt".data,
                     Entity.mk "y.txt".data ASSET_TYPE 4 none (some [[2]]) 4 false [])])
                   none 0 false [])])
          none 0 false [])])
        none 0 false []) = true
      ∧ ValidPath "/d".data
      ∧ (∃ root', deleteDirectoryOp (Entity.mk [] DIR_TYPE 0
          (some [("d".data, Entity.mk "d".data DIR_TYPE 1
            (some [("x.txt".data, Entity.mk "x.txt".data ASSET_TYPE 2 none (some [[1]]) 2 false []),
                   ("s".data, Entity.mk "s".data DIR_TYPE 3
                     (some [("y.txt".data,
                       Entity.mk "y.txt".data ASSET_TYPE 4 none (some [[2]]) 4 false [])])
                     none 0 false [])])
            none 0 false [])])
          none 0 false []) "/d".data = (.ok (), root')
        ∧ ∀ q, (∃ rest, effSegs q = effSegs "/d".data ++ rest) → existsOp root' q = false) := by
  refine ⟨by decide, ⟨["d".data], by simp, by decide, by decide⟩, ?_⟩
  exact C9_delete_directory_subtree _ _ (by decide)
    ⟨["d".data], by simp, by decide, by decide⟩
    ⟨infoFromEntity (Entity.mk "d".data DIR_TYPE 1
      (some [("x.txt".data, Entity.mk "x.txt".data ASSET_TYPE 2 none (some [[1]]) 2 false []),
             ("s".data, Entity.mk "s".data DIR_TYPE 3
               (some [("y.txt".data,
                 Entity.mk "y.txt".data ASSET_TYPE 4 none (some [[2]]) 4 false [])])
               none 0 false [])])
      none 0 false []), by rfl, by decide⟩

/-- C10 counterexample: the claim fails as stated.  On a repository holding
the asset /a.txt, patching the info-view key type (a key present in the
view) with the directory tag makes the checkedOut field, which the patch
does not name, vanish from the info view instead of keeping its previous
value; and patching name changes the derived contentType, which the patch
does not name either. -/
theorem C10_counterexample :
    ((updateAssetInfoOp
        (Entity.mk [] DIR_TYPE 0
          (some [("a.txt".data, Entity.mk "a.txt".data ASSET_TYPE 5 none (some [[1, 2]]) 5 false [])])
          none 0 false [])
        "/a.txt".data [("type", .vs DIR_TYPE)]).1.isOk = true
      ∧ ((getInfoOp
          (Entity.mk [] DIR_TYPE 0
            (some [("a.txt".data, Entity.mk "a.txt".data ASSET_TYPE 5 none (some [[1, 2]]) 5 false [])])
            none 0 false [])
          "/a.txt".data).toOption.bind (fun o => objGet o "checkedOut") = some (.vb false))
      ∧ ((updateAssetInfoOp
          (Entity.mk [] DIR_TYPE 0
            (some [("a.txt".data, Entity.mk "a.txt".data ASSET_TYPE 5 none (some [[1, 2]]) 5 false [])])
            none 0 false [])
          "/a.txt".data [("type", .vs DIR_TYPE)]).1.toOption.bind
            (fun o => objGet o "checkedOut") = none)
      ∧ ((getInfoOp
          (Entity.mk [] DIR_TYPE 0
            (some [("a.txt".data, Entity.mk "a.txt".data ASSET_TYPE 5 none (some [[1, 2]]) 5 false [])])
            none 0 false [])
          "/a.txt".data).toOption.bind (fun o => objGet o "contentType")
            = some (.vs "text/plain".data))
      ∧ ((updateAssetInfoOp
          (Entity.mk [] DIR_TYPE 0
            (some [("a.txt".data, Entity.mk "a.txt".data ASSET_TYPE 5 none (some [[1, 2]]) 5 false [])])
            none 0 false [])
          "/a.txt".data [("name", .vs "a.png".data)]).1.toOption.bind
            (fun o => objGet o "contentType") = some (.vs "image/png".data))) := by
  decide

/-- C10 amended: for every state with an asset at p and every patch object
naming neither the name nor the type key, updateAssetInfo succeeds and the
resulting info view satisfies: keys of the patch outside the info view are
silently ignored (appending them changes nothing); info-view fields not
named in the patch keep their previous values (contentType and size keep
theirs even when named, as writes to them land on properties the view never
reads); and named checkedOut / checkedOutBy values are applied. -/
theorem C10_update_asset_info_patch (root : Entity) (p : JStr) (newInfo : Obj)
    (hasset : ∃ e0, getEntity root p = .ok e0 ∧ e0.typ = ASSET_TYPE)
    (hname : objGet newInfo "name" = none)
    (htype : objGet newInfo "type" = none) :
    ∃ info0 root' info',
      getInfoOp root p = .ok info0
      ∧ updateAssetInfoOp root p newInfo = (.ok info', root')
      ∧ (∀ junk : Obj, (∀ kv ∈ junk, ¬ (kv.1 ∈ infoKeys)) →
          updateAssetInfoOp root p (newInfo ++ junk) = updateAssetInfoOp root p newInfo)
      ∧ (objGet info' "name" = objGet info0 "name")
      ∧ (objGet info' "type" = objGet info0 "type")
      ∧ (objGet info' "contentType" = objGet info0 "contentType")
      ∧ (objGet info' "size" = objGet info0 "size")
      ∧ (objGet newInfo "created" = none → objGet info' "created" = objGet info0 "created")
      ∧ (objGet newInfo "modified" = none → objGet info' "modified" = objGet info0 "modified")
      ∧ (objGet newInfo "checkedOut" = none →
          objGet info' "checkedOut" = objGet info0 "checkedOut")
      ∧ (objGet newInfo "checkedOutBy" = none →
          objGet info' "checkedOutBy" = objGet info0 "checkedOutBy")
      ∧ (∀ b, objGet newInfo "checkedOut" = some (.vb b) →
          objGet info' "checkedOut" = some (.vb b))
      ∧ (∀ s, objGet newInfo "checkedOutBy" = some (.vs s) →
          objGet info' "checkedOutBy" = some (.vs s)) := by
  obtain ⟨e0, hge, htyp⟩ := hasset
  obtain ⟨nm, ty, cr, och, co, mo, ck, cb⟩ := e0
  have hty : ty = ASSET_TYPE := htyp
  subst hty
  have hinfo0 : getInfoOp root p
      = .ok (infoFromEntity (Entity.mk nm ASSET_TYPE cr och co mo ck cb)) :=
    getInfoOp_ok_of hge
  have ht0 : isType (infoFromEntity (Entity.mk nm ASSET_TYPE cr och co mo ck cb))
      ASSET_TYPE = true := isType_true_iff.mpr rfl
  have hiv : infoFromEntity (Entity.mk nm ASSET_TYPE cr och co mo ck cb)
      = [("name", Val.vs nm), ("created", Val.vn cr), ("type", Val.vs ASSET_TYPE),
         ("modified", Val.vn mo),
         ("contentType", match mimeGetType nm with | some t => Val.vs t | none => Val.vnull),
         ("size", Val.vn (contentSize co)),
         ("checkedOut", Val.vb ck), ("checkedOutBy", Val.vs cb)] := by
    simp [infoFromEntity, Entity.typ, Entity.name, Entity.created, Entity.modified,
      Entity.content, Entity.checkedOut, Entity.checkedOutBy]
  have hupd : (infoFromEntity (Entity.mk nm ASSET_TYPE cr och co mo ck cb)).map
        (fun kv => (kv.1, (objGet newInfo kv.1).getD kv.2))
      = [("name", Val.vs nm),
         ("created", (objGet newInfo "created").getD (Val.vn cr)),
         ("type", Val.vs ASSET_TYPE),
         ("modified", (objGet newInfo "modified").getD (Val.vn mo)),
         ("contentType", (objGet newInfo "contentType").getD
            (match mimeGetType nm with | some t => Val.vs t | none => Val.vnull)),
         ("size", (objGet newInfo "size").getD (Val.vn (contentSize co))),
         ("checkedOut", (objGet newInfo "checkedOut").getD (Val.vb ck)),
         ("checkedOutBy", (objGet newInfo "checkedOutBy").getD (Val.vs cb))] := by
    rw [hiv]
    simp [hname, htype]
  have happly : applyObj (Entity.mk nm ASSET_TYPE cr och co mo ck cb)
        ((infoFromEntity (Entity.mk nm ASSET_TYPE cr och co mo ck cb)).map
          (fun kv => (kv.1, (objGet newInfo kv.1).getD kv.2)))
      = Entity.mk nm ASSET_TYPE
          (match (objGet newInfo "created").getD (Val.vn cr) with | Val.vn x => x | _ => cr)
          och co
          (match (objGet newInfo "modified").getD (Val.vn mo) with | Val.vn x => x | _ => mo)
          (match (objGet newInfo "checkedOut").getD (Val.vb ck) with | Val.vb x => x | _ => ck)
          (match (objGet newInfo "checkedOutBy").getD (Val.vs cb) with | Val.vs x => x | _ => cb) := by
    rw [hupd]
    simp only [applyObj, List.foldl, applyInfoKey_name, applyInfoKey_created,
      applyInfoKey_type, applyInfoKey_modified, applyInfoKey_contentType,
      applyInfoKey_size, applyInfoKey_checkedOut, applyInfoKey_checkedOutBy,
      Entity.setName, Entity.setTyp, Entity.setCreated, Entity.setModified,
      Entity.setCheckedOut, Entity.setCheckedOutBy, Entity.created, Entity.modified,
      Entity.checkedOut, Entity.checkedOutBy, Entity.typ, Entity.name]
  have hwalk : walkSegs root (effSegs p) = .ok (Entity.mk nm ASSET_TYPE cr och co mo ck cb) := by
    rw [← getEntity_eq_walk]
    exact hge
  have hfok : (if (Entity.mk nm ASSET_TYPE cr och co mo ck cb).typ ≠ ASSET_TYPE then
        (Except.error "asset to update is not an asset" : Except String Entity)
      else .ok (applyObj (Entity.mk nm ASSET_TYPE cr och co mo ck cb)
        ((infoFromEntity (Entity.mk nm ASSET_TYPE cr och co mo ck cb)).map
          (fun kv => (kv.1, (objGet newInfo kv.1).getD kv.2)))))
      = .ok (applyObj (Entity.mk nm ASSET_TYPE cr och co mo ck cb)
        ((infoFromEntity (Entity.mk nm ASSET_TYPE cr och co mo ck cb)).map
          (fun kv => (kv.1, (objGet newInfo kv.1).getD kv.2)))) := by
    simp [Entity.typ]
  obtain ⟨root', hmod, hwalk'⟩ := modifySegs_ok (fun e =>
      if e.typ ≠ ASSET_TYPE then .error "asset to update is not an asset"
      else .ok (applyObj e ((infoFromEntity (Entity.mk nm ASSET_TYPE cr och co mo ck cb)).map
        (fun kv => (kv.1, (objGet newInfo kv.1).getD kv.2))))) (effSegs p) hwalk hfok
  have hme : modifyEntity root p (fun e =>
      if e.typ ≠ ASSET_TYPE then .error "asset to update is not an asset"
      else .ok (applyObj e ((infoFromEntity (Entity.mk nm ASSET_TYPE cr och co mo ck cb)).map
        (fun kv => (kv.1, (objGet newInfo kv.1).getD kv.2))))) = .ok root' := by
    rw [modifyEntity_eq_modify]
    exact hmod
  have hge' : getEntity root' p = .ok (applyObj (Entity.mk nm ASSET_TYPE cr och co mo ck cb)
      ((infoFromEntity (Entity.mk nm ASSET_TYPE cr och co mo ck cb)).map
        (fun kv => (kv.1, (objGet newInfo kv.1).getD kv.2)))) := by
    rw [getEntity_eq_walk]
    exact hwalk'
  have hop : updateAssetInfoOp root p newInfo
      = (.ok (infoFromEntity (applyObj (Entity.mk nm ASSET_TYPE cr och co mo ck cb)
          ((infoFromEntity (Entity.mk nm ASSET_TYPE cr och co mo ck cb)).map
            (fun kv => (kv.1, (objGet newInfo kv.1).getD kv.2))))), root') := by
    unfold updateAssetInfoOp
    simp only [hinfo0, ht0, eq_self_iff_true, not_true, if_false]
    rw [hme]
    simp only [getInfoOp_ok_of hge']
  rw [happly] at hop hge'
  have hiv' : infoFromEntity (Entity.mk nm ASSET_TYPE
        (match (objGet newInfo "created").getD (Val.vn cr) with | Val.vn x => x | _ => cr)
        och co
        (match (objGet newInfo "modified").getD (Val.vn mo) with | Val.vn x => x | _ => mo)
        (match (objGet newInfo "checkedOut").getD (Val.vb ck) with | Val.vb x => x | _ => ck)
        (match (objGet newInfo "checkedOutBy").getD (Val.vs cb) with | Val.vs x => x | _ => cb))
      = [("name", Val.vs nm),
         ("created", Val.vn (match (objGet newInfo "created").getD (Val.vn cr) with
            | Val.vn x => x | _ => cr)),
         ("type", Val.vs ASSET_TYPE),
         ("modified", Val.vn (match (objGet newInfo "modified").getD (Val.vn mo) with
            | Val.vn x => x | _ => mo)),
         ("contentType", match mimeGetType nm with | some t => Val.vs t | none => Val.vnull),
         ("size", Val.vn (contentSize co)),
         ("checkedOut", Val.vb (match (objGet newInfo "checkedOut").getD (Val.vb ck) with
            | Val.vb x => x | _ => ck)),
         ("checkedOutBy", Val.vs (match (objGet newInfo "checkedOutBy").getD (Val.vs cb) with
            | Val.vs x => x | _ => cb))] := by
    simp [infoFromEntity, Entity.typ, Entity.name, Entity.created, Entity.modified,
      Entity.content, Entity.checkedOut, Entity.checkedOutBy]
  refine ⟨_, root', _, hinfo0, hop, ?_, ?_, ?_, ?_, ?_, ?_, ?_, ?_, ?_, ?_, ?_⟩
  · intro junk hjunk
    have hg : ∀ k, k ∈ infoKeys → objGet (newInfo ++ junk) k = objGet newInfo k := by
      intro k hk
      refine objGet_append_disjoint _ _ _ ?_
      intro kv hkv heq
      exact hjunk kv hkv (heq ▸ hk)
    have hlist : (infoFromEntity (Entity.mk nm ASSET_TYPE cr och co mo ck cb)).map
          (fun kv => (kv.1, (objGet (newInfo ++ junk) kv.1).getD kv.2))
        = (infoFromEntity (Entity.mk nm ASSET_TYPE cr och co mo ck cb)).map
          (fun kv => (kv.1, (objGet newInfo kv.1).getD kv.2)) := by
      rw [hiv]
      simp only [List.map]
      rw [hg "name" (by simp [infoKeys]), hg "created" (by simp [infoKeys]),
        hg "type" (by simp [infoKeys]), hg "modified" (by simp [infoKeys]),
        hg "contentType" (by simp [infoKeys]), hg "size" (by simp [infoKeys]),
        hg "checkedOut" (by simp [infoKeys]), hg "checkedOutBy" (by simp [infoKeys])]
    unfold updateAssetInfoOp
    simp only [hinfo0, ht0, hlist]
  · rw [hiv', hiv]
    rfl
  · rw [hiv', hiv]
    rfl
  · rw [hiv', hiv]
    rfl
  · rw [hiv', hiv]
    rfl
  · intro h
    rw [hiv', hiv]
    simp [objGet, h]
  · intro h
    rw [hiv', hiv]
    simp [objGet, h]
  · intro h
    rw [hiv', hiv]
    simp [objGet, h]
  · intro h
    rw [hiv', hiv]
    simp [objGet, h]
  · intro b h
    rw [hiv']
    simp [objGet, h]
  · intro s h
    rw [hiv']
    simp [objGet, h]

/-- C10 amended witness: patching checkedOut and checkedOutBy together with
an unknown key on a concrete asset applies the named keys, keeps everything
else and ignores the unknown key. -/
theorem C10_update_asset_info_patch_witness :
    (∃ e0, getEntity
        (Entity.mk [] DIR_TYPE 0
          (some [("b.txt".data, Entity.mk "b.txt".data ASSET_TYPE 9 none (some [[7]]) 9 false [])])
          none 0 false [])
        "/b.txt".data = .ok e0 ∧ e0.typ = ASSET_TYPE)
      ∧ objGet [("checkedOut", Val.vb true), ("checkedOutBy", Val.vs "me".data)] "name" = none
      ∧ objGet [("checkedOut", Val.vb true), ("checkedOutBy", Val.vs "me".data)] "type" = none
      ∧ (∃ info0 root' info',
          getInfoOp (Entity.mk [] DIR_TYPE 0
            (some [("b.txt".data, Entity.mk "b.txt".data ASSET_TYPE 9 none (some [[7]]) 9 false [])])
            none 0 false []) "/b.txt".data = .ok info0
          ∧ updateAssetInfoOp (Entity.mk [] DIR_TYPE 0
              (some [("b.txt".data, Entity.mk "b.txt".data ASSET_TYPE 9 none (some [[7]]) 9 false [])])
              none 0 false []) "/b.txt".data
              [("checkedOut", Val.vb true), ("checkedOutBy", Val.vs "me".data)]
            = (.ok info', root')
          ∧ (∀ junk : Obj, (∀ kv ∈ junk, ¬ (kv.1 ∈ infoKeys)) →
              updateAssetInfoOp (Entity.mk [] DIR_TYPE 0
                  (some [("b.txt".data,
                    Entity.mk "b.txt".data ASSET_TYPE 9 none (some [[7]]) 9 false [])])
                  none 0 false []) "/b.txt".data
                  ([("checkedOut", Val.vb true), ("checkedOutBy", Val.vs "me".data)] ++ junk)
                = updateAssetInfoOp (Entity.mk [] DIR_TYPE 0
                  (some [("b.txt".data,
                    Entity.mk "b.txt".data ASSET_TYPE 9 none (some [[7]]) 9 false [])])
                  none 0 false []) "/b.txt".data
                  [("checkedOut", Val.vb true), ("checkedOutBy", Val.vs "me".data)])
          ∧ (objGet info' "name" = objGet info0 "name")
          ∧ (objGet info' "type" = objGet info0 "type")
          ∧ (objGet info' "contentType" = objGet info0 "contentType")
          ∧ (objGet info' "size" = objGet info0 "size")
          ∧ (objGet [("checkedOut", Val.vb true), ("checkedOutBy", Val.vs "me".data)] "created"
                = none →
              objGet info' "created" = objGet info0 "created")
          ∧ (objGet [("checkedOut", Val.vb true), ("checkedOutBy", Val.vs "me".data)] "modified"
                = none →
              objGet info' "modified" = objGet info0 "modified")
          ∧ (objGet [("checkedOut", Val.vb true), ("checkedOutBy", Val.vs "me".data)] "checkedOut"
                = none →
              objGet info' "checkedOut" = objGet info0 "checkedOut")
          ∧ (objGet [("checkedOut", Val.vb true), ("checkedOutBy", Val.vs "me".data)] "checkedOutBy"
                = none →
              objGet info' "checkedOutBy" = objGet info0 "checkedOutBy")
          ∧ (∀ b, objGet [("checkedOut", Val.vb true), ("checkedOutBy", Val.vs "me".data)]
                "checkedOut" = some (.vb b) →
              objGet info' "checkedOut" = some (.vb b))
          ∧ (∀ s, objGet [("checkedOut", Val.vb true), ("checkedOutBy", Val.vs "me".data)]
                "checkedOutBy" = some (.vs s) →
              objGet info' "checkedOutBy" = some (.vs s))) := by
  refine ⟨⟨Entity.mk "b.txt".data ASSET_TYPE 9 none (some [[7]]) 9 false [], by rfl, rfl⟩,
    rfl, rfl, ?_⟩
  exact C10_update_asset_info_patch _ _ _
    ⟨Entity.mk "b.txt".data ASSET_TYPE 9 none (some [[7]]) 9 false [], by rfl, rfl⟩ rfl rfl

/-- C8 witness: one byte over two milliseconds rounds to one; rate stays at
zero while no time has elapsed. -/
theorem C8_rate_computation_witness :
    ((0 : Nat) < 2 ∧
      (computeRate 0 1 2 : ℤ) = max 1 (round ((1 : ℚ) / (2 : ℚ)))
        ∧ 1 ≤ computeRate 0 1 2) ∧
      ((0 : Nat) = 0 ∧ computeRate 5 9 0 = 5) :=
  ⟨⟨by decide, (C8_rate_computation 0 1 2).1 (by decide)⟩,
    ⟨rfl, (C8_rate_computation 5 9 0).2.1 rfl⟩⟩

/-- C4 counterexample: the claim fails as stated for literal string terms.
On a repository holding the single asset a+b.txt, the term given as the
string a+b is a substring of the asset name, yet findAssets returns
nothing, because the coordinator compiles the string with new RegExp and
the pattern a+b (one or more a followed by b) matches nowhere in the name;
handing the equivalent literal expression as a RegExp term does return the
asset. -/
theorem C4_counterexample :
    wfEntity (Entity.mk [] DIR_TYPE 0
        (some [("a+b.txt".data,
          Entity.mk "a+b.txt".data ASSET_TYPE 1 none (some [[1]]) 1 false [])])
        none 0 false []) = true
    ∧ "a+b.txt".data = ([] : JStr) ++ ("a+b".data ++ ".txt".data)
    ∧ findAssetsOp (Entity.mk [] DIR_TYPE 0
        (some [("a+b.txt".data,
          Entity.mk "a+b.txt".data ASSET_TYPE 1 none (some [[1]]) 1 false [])])
        none 0 false []) (.strT "a+b".data) = []
    ∧ findAssetsOp (Entity.mk [] DIR_TYPE 0
        (some [("a+b.txt".data,
          Entity.mk "a+b.txt".data ASSET_TYPE 1 none (some [[1]]) 1 false [])])
        none 0 false []) (.re (literalR "a+b".data))
      = [infoFromEntity
          (Entity.mk "a+b.txt".data ASSET_TYPE 1 none (some [[1]]) 1 false [])] := by
  refine ⟨by decide, by decide, by rfl, by rfl⟩

/-- C4 amended: over a well-formed repository state, findAssets returns
only views of asset-typed entities of the tree whose names match the
compiled search term, and an asset of the tree is returned exactly when its
name matches; matching means the compiled expression matches somewhere
inside the name (JavaScript match); a RegExp term is used as given, and a
string term is compiled with new RegExp, which coincides with substring
containment only for strings of plain characters (no pattern
metacharacters). -/
theorem C4_find_assets (root : Entity) (term : SearchTerm)
    (hwf : wfEntity root = true) :
    (∀ o ∈ findAssetsOp root term,
      ∃ e, e ∈ subEntities root ∧ e.typ = ASSET_TYPE
        ∧ rsearch (searchTermToRegex term) e.name = true ∧ o = infoFromEntity e)
    ∧ (∀ e, e ∈ subEntities root → e.typ = ASSET_TYPE →
        (infoFromEntity e ∈ findAssetsOp root term
          ↔ rsearch (searchTermToRegex term) e.name = true))
    ∧ (∀ (r : Regex) (l : List Char),
        rsearch r l = true
          ↔ ∃ pre mid post, l = pre ++ (mid ++ post) ∧ RMatches r mid)
    ∧ (∀ s l : JStr, (∀ c ∈ s, plainChar c = true) →
        (rsearch (searchTermToRegex (.strT s)) l = true
          ↔ ∃ pre post, l = pre ++ (s ++ post))) := by
  refine ⟨?_, ?_, rsearch_iff, ?_⟩
  · intro o ho
    rw [findAssetsOp_collect] at ho
    obtain ⟨c, hc, hnd, hrs, hoe⟩ := collectE_sound _ root o ho
    have hcty : c.typ = ASSET_TYPE :=
      wfEntity_typ_of_nonDir (subEntities_wf root hwf c hc) (by simpa using hnd)
    exact ⟨c, hc, hcty, hrs, hoe⟩
  · intro e he hty
    constructor
    · intro hmem
      rw [findAssetsOp_collect] at hmem
      obtain ⟨c, hc, hnd, hrs, hoe⟩ := collectE_sound _ root _ hmem
      have hname : e.name = c.name := infoFromEntity_name_inj hoe
      rw [hname]
      exact hrs
    · intro hrs
      rw [findAssetsOp_collect]
      refine collectE_complete _ root hwf e he ?_ hrs
      rw [hty]
      exact beq_eq_false_iff_ne.mpr (fun hx => DIR_ne_ASSET hx.symm)
  · intro s l hplain
    have hcomp : searchTermToRegex (.strT s) = literalR s := by
      simp only [searchTermToRegex]
      exact newRegExp_plain s hplain
    rw [hcomp]
    exact rsearch_literal s l

/-- C4 amended witness: on a concrete two-node repository, the
characterization applied to the plain string term ell finds the asset
hello.txt. -/
theorem C4_find_assets_witness :
    wfEntity (Entity.mk [] DIR_TYPE 0
        (some [("hello.txt".data,
          Entity.mk "hello.txt".data ASSET_TYPE 1 none (some [[1]]) 1 false [])])
        none 0 false []) = true
    ∧ ((∀ o ∈ findAssetsOp (Entity.mk [] DIR_TYPE 0
          (some [("hello.txt".data,
            Entity.mk "hello.txt".data ASSET_TYPE 1 none (some [[1]]) 1 false [])])
          none 0 false []) (.strT "ell".data),
        ∃ e, e ∈ subEntities (Entity.mk [] DIR_TYPE 0
            (some [("hello.txt".data,
              Entity.mk "hello.txt".data ASSET_TYPE 1 none (some [[1]]) 1 false [])])
            none 0 false []) ∧ e.typ = ASSET_TYPE
          ∧ rsearch (searchTermToRegex (.strT "ell".data)) e.name = true
          ∧ o = infoFromEntity e)
      ∧ (∀ e, e ∈ subEntities (Entity.mk [] DIR_TYPE 0
            (some [("hello.txt".data,
              Entity.mk "hello.txt".data ASSET_TYPE 1 none (some [[1]]) 1 false [])])
            none 0 false []) → e.typ = ASSET_TYPE →
          (infoFromEntity e ∈ findAssetsOp (Entity.mk [] DIR_TYPE 0
              (some [("hello.txt".data,
                Entity.mk "hello.txt".data ASSET_TYPE 1 none (some [[1]]) 1 false [])])
              none 0 false []) (.strT "ell".data)
            ↔ rsearch (searchTermToRegex (.strT "ell".data)) e.name = true))
      ∧ (∀ (r : Regex) (l : List Char),
          rsearch r l = true
            ↔ ∃ pre mid post, l = pre ++ (mid ++ post) ∧ RMatches r mid)
      ∧ (∀ s l : JStr, (∀ c ∈ s, plainChar c = true) →
          (rsearch (searchTermToRegex (.strT s)) l = true
            ↔ ∃ pre post, l = pre ++ (s ++ post)))) :=
  ⟨by decide,
    C4_find_assets (Entity.mk [] DIR_TYPE 0
      (some [("hello.txt".data,
        Entity.mk "hello.txt".data ASSET_TYPE 1 none (some [[1]]) 1 false [])])
      none 0 false []) (.strT "ell".data) (by decide)⟩

/-- C3: over a streamed transfer of positive-size chunks, exactly one
transferprogress event carries read equal to zero and exactly one carries
read equal to the total byte count, regardless of the throttle window; the
first event is the forced start notification with read and rate zero and
the last event carries the total; and a data event can emit an intermediate
event only when the time elapsed since the last emission of the key exceeds
the 1000ms window — precisely, with a stored last-emission record whose
read does not exceed the running total, an unforced data event emits if and
only if the window has been exceeded. -/
theorem C3_progress_throttling (t0 tEnd : Nat) (chunks : List (Nat × Nat))
    (hpos : ∀ c ∈ chunks, 0 < c.2) :
    ((runTransfer t0 chunks tEnd).filter (fun ev => ev.read = 0)).length = 1
    ∧ ((runTransfer t0 chunks tEnd).filter
        (fun ev => ev.read = (chunks.map Prod.snd).sum)).length = 1
    ∧ (runTransfer t0 chunks tEnd).head? = some (ProgressEv.mk 0 0)
    ∧ (∃ evl, (runTransfer t0 chunks tEnd).getLast? = some evl
        ∧ evl.read = (chunks.map Prod.snd).sum)
    ∧ (∀ (s : MonState) (le : LastEmit) (now len : Nat),
        s.lastEmit = some le → le.read ≤ s.totalRead → 0 < len →
        (((dataEvent t0 s now len).2).isSome = true
          ↔ EMIT_DELAY < now - le.timestamp)) := by
  have hiff : ∀ (s : MonState) (le : LastEmit) (now len : Nat),
      s.lastEmit = some le → le.read ≤ s.totalRead → 0 < len →
      (((dataEvent t0 s now len).2).isSome = true
        ↔ EMIT_DELAY < now - le.timestamp) := by
    intro s le now len hle hread hlen
    by_cases hw : EMIT_DELAY < now - le.timestamp
    · rw [dataEvent_emit t0 s le now len hle hread hlen hw]
      simp [hw]
    · rw [dataEvent_skip t0 s le now len hle hw]
      simp [hw]
  obtain ⟨le2, h1, h2, h3, h4, h5, h6, h7⟩ :=
    processChunks_run t0 chunks ⟨0, 0, some ⟨t0, 0, 0⟩⟩ ⟨t0, 0, 0⟩ rfl rfl
      (Nat.le_refl 0) hpos
  set mid := processChunks t0 ⟨0, 0, some ⟨t0, 0, 0⟩⟩ chunks with hmid
  have hN : mid.1.totalRead = (chunks.map Prod.snd).sum := by simpa using h4
  have hrun : runTransfer t0 chunks tEnd
      = ProgressEv.mk 0 0 :: (mid.2
        ++ (if (emitTransferProgress mid.1.lastEmit tEnd mid.1.totalRead
              mid.1.rate true true).1
            then [ProgressEv.mk mid.1.totalRead mid.1.rate] else [])) := by
    rw [hmid]
    rfl
  have hz : ∀ ev ∈ mid.2, 0 < ev.read := by
    intro ev hev
    have := h5 ev hev
    simpa using this
  have hf0 : mid.2.filter (fun ev => decide (ev.read = 0)) = [] := by
    refine List.filter_eq_nil_iff.mpr ?_
    intro ev hev
    have := hz ev hev
    simp
    omega
  by_cases hEq : le2.read = mid.1.totalRead
  · have hfin : (emitTransferProgress mid.1.lastEmit tEnd mid.1.totalRead
        mid.1.rate true true).1 = false := by
      rw [h1, h2]
      simp [emitTransferProgress, shouldEmitProgress, hEq]
    have hrun2 : runTransfer t0 chunks tEnd = ProgressEv.mk 0 0 :: mid.2 := by
      rw [hrun, hfin]
      simp
    rcases h7 with ⟨hnil, hl2⟩ | ⟨pre, evl, hsplit, hlast⟩
    · have hr0 : le2.read = 0 := by rw [hl2]
      have hsum0 : (chunks.map Prod.snd).sum = 0 := by omega
      refine ⟨?_, ?_, ?_, ?_, hiff⟩
      · rw [hrun2, hnil]
        rfl
      · rw [hrun2, hnil, hsum0]
        rfl
      · rw [hrun2]
        rfl
      · refine ⟨ProgressEv.mk 0 0, ?_, ?_⟩
        · rw [hrun2, hnil]
          rfl
        · rw [hsum0]
    · have hevl : evl ∈ mid.2 := by
        rw [hsplit]
        exact List.mem_append_right _ (by simp)
      have hevlpos : 0 < evl.read := hz evl hevl
      have hTpos : 0 < mid.1.totalRead := by omega
      have hpw : ∀ a ∈ pre, a.read < evl.read := by
        have h6' := h6
        rw [hsplit] at h6'
        intro a ha
        exact (List.pairwise_append.mp h6').2.2 a ha evl (by simp)
      refine ⟨?_, ?_, ?_, ?_, hiff⟩
      · rw [hrun2]
        simp [List.filter_cons, hf0]
      · rw [hrun2, ← hN, hsplit]
        have h0T : ¬ ((ProgressEv.mk 0 0).read = mid.1.totalRead) := by
          simp
          omega
        have hfpre : pre.filter (fun ev => decide (ev.read = mid.1.totalRead)) = [] := by
          refine List.filter_eq_nil_iff.mpr ?_
          intro ev hev
          have := hpw ev hev
          simp
          omega
        have hevlT : evl.read = mid.1.totalRead := by omega
        simp [List.filter_cons, List.filter_append, h0T, hfpre, hevlT]
      · rw [hrun2]
        rfl
      · refine ⟨evl, ?_, by omega⟩
        rw [hrun2, hsplit]
        rw [show ProgressEv.mk 0 0 :: (pre ++ [evl])
            = (ProgressEv.mk 0 0 :: pre) ++ [evl] from rfl]
        exact List.getLast?_concat _
  · have hfin : (emitTransferProgress mid.1.lastEmit tEnd mid.1.totalRead
        mid.1.rate true true).1 = true := by
      rw [h1, h2]
      simp [emitTransferProgress, shouldEmitProgress, hEq]
    have hTpos : 0 < mid.1.totalRead := by omega
    have hrun2 : runTransfer t0 chunks tEnd
        = ProgressEv.mk 0 0 :: (mid.2 ++ [ProgressEv.mk mid.1.totalRead mid.1.rate]) := by
      rw [hrun, hfin]
      simp
    have hmidne : ∀ ev ∈ mid.2, ev.read ≠ mid.1.totalRead := by
      intro ev hev
      rcases h7 with ⟨hnil, _⟩ | ⟨pre, evl, hsplit, hlast⟩
      · rw [hnil] at hev
        cases hev
      · rw [hsplit] at hev
        rcases List.mem_append.mp hev with hpre | hevl
        · have h6' := h6
          rw [hsplit] at h6'
          have := (List.pairwise_append.mp h6').2.2 ev hpre evl (by simp)
          omega
        · have hev' : ev = evl := by simpa using hevl
          subst hev'
          omega
    refine ⟨?_, ?_, ?_, ?_, hiff⟩
    · rw [hrun2]
      have hfT0 : ¬ ((ProgressEv.mk mid.1.totalRead mid.1.rate).read = 0) := by
        simp
        omega
      simp [List.filter_cons, List.filter_append, hf0, hfT0]
    · rw [hrun2, ← hN]
      have hfN : mid.2.filter (fun ev => decide (ev.read = mid.1.totalRead)) = [] := by
        refine List.filter_eq_nil_iff.mpr ?_
        intro ev hev
        have := hmidne ev hev
        simp
        omega
      have h0T : ¬ ((ProgressEv.mk 0 0).read = mid.1.totalRead) := by
        simp
        omega
      simp [List.filter_cons, List.filter_append, hfN, h0T]
    · rw [hrun2]
      rfl
    · refine ⟨ProgressEv.mk mid.1.totalRead mid.1.rate, ?_, by simpa using hN⟩
      rw [hrun2]
      rw [show ProgressEv.mk 0 0 :: (mid.2 ++ [ProgressEv.mk mid.1.totalRead mid.1.rate])
          = (ProgressEv.mk 0 0 :: mid.2) ++ [ProgressEv.mk mid.1.totalRead mid.1.rate]
          from rfl]
      exact List.getLast?_concat _

/-- C3 witness: a concrete transfer of two positive chunks, the second
beyond the throttle window. -/
theorem C3_progress_throttling_witness :
    (∀ c ∈ ([(500, 5), (1600, 7)] : List (Nat × Nat)), 0 < c.2)
    ∧ (((runTransfer 0 [(500, 5), (1600, 7)] 2000).filter
          (fun ev => ev.read = 0)).length = 1
      ∧ ((runTransfer 0 [(500, 5), (1600, 7)] 2000).filter
          (fun ev => ev.read
            = (([(500, 5), (1600, 7)] : List (Nat × Nat)).map Prod.snd).sum)).length = 1
      ∧ (runTransfer 0 [(500, 5), (1600, 7)] 2000).head? = some (ProgressEv.mk 0 0)
      ∧ (∃ evl, (runTransfer 0 [(500, 5), (1600, 7)] 2000).getLast? = some evl
          ∧ evl.read = (([(500, 5), (1600, 7)] : List (Nat × Nat)).map Prod.snd).sum)
      ∧ (∀ (s : MonState) (le : LastEmit) (now len : Nat),
          s.lastEmit = some le → le.read ≤ s.totalRead → 0 < len →
          (((dataEvent 0 s now len).2).isSome = true
            ↔ EMIT_DELAY < now - le.timestamp))) :=
  ⟨by decide, C3_progress_throttling 0 2000 [(500, 5), (1600, 7)] (by decide)⟩

end AssetRepo
